import Mathlib

/-!
# Verification of the bingo-game core (ticket generation, win detection, drawing)

Shallow embedding of `src/game/main.py` and `src/game/game.py`.

## Randomness model

Python's `random.Random` object is modelled as an infinite stream of natural
numbers together with a position counter.  Each primitive request (one `choice`,
or one selection step inside `sample`) consumes one stream value; an index is
obtained by reducing the value modulo the number of alternatives.  Quantifying
over all streams over-approximates every behaviour of the concrete Mersenne
Twister, so "for every seed" claims are proved for every stream.

* `random.Random(seed)`  → `pyRandom mt env seed`: when a seed is given the
  stream is `mt seed` (`mt` stands for the seed-determined generator, an
  arbitrary function); when the seed is `None` the stream is the ambient
  entropy `env`.  Determinism-in-the-seed is then the statement that results do
  not depend on `env`.
* `rnd.choice(l)`         → `Rng.choice`: one stream value, reduced mod `l.length`.
* `rnd.sample(l, k)`      → `Rng.sample`: validates `k ≤ l.length` first (CPython
  raises `ValueError` before consuming randomness), then draws `k` distinct
  positions without replacement.
* `rnd.shuffle(l)`        → `Rng.shuffle`: a permutation of `l`, realised by
  drawing all `l.length` elements without replacement.
-/

structure Rng where
  stream : Nat → Nat
  pos : Nat

namespace Rng

/-- Consume one value from the random stream. -/
def next (g : Rng) : Nat × Rng := (g.stream g.pos, ⟨g.stream, g.pos + 1⟩)

/-- `rnd.choice(l)`: pick one element of `l`.  Python raises `IndexError` on an
empty list; every call site in the sources guards for non-emptiness, and on the
empty list we return `default`. -/
def choice {α : Type} [Inhabited α] (g : Rng) (l : List α) : α × Rng :=
  let p := g.next
  (l.getD (p.1 % l.length) default, p.2)

/-- Selection core of `rnd.sample`: draw `k` elements without replacement by
repeatedly removing a stream-chosen position.  Only called with `k ≤ l.length`. -/
def sampleAux {α : Type} : Rng → List α → Nat → List α × Rng
  | g, _, 0 => ([], g)
  | g, l, k + 1 =>
    if h : l.length = 0 then ([], g)
    else
      let p := g.next
      let i : Fin l.length := ⟨p.1 % l.length, Nat.mod_lt _ (Nat.pos_of_ne_zero h)⟩
      let rest := sampleAux p.2 (l.eraseIdx i) k
      (l.get i :: rest.1, rest.2)

/-- `rnd.sample(l, k)`: `k` distinct elements of `l`, or `none` (= `ValueError`)
when `k > l.length`.  CPython validates the size before consuming randomness,
so the failing case leaves the generator untouched. -/
def sample {α : Type} (g : Rng) (l : List α) (k : Nat) : Option (List α) × Rng :=
  if k ≤ l.length then
    let p := g.sampleAux l k
    (some p.1, p.2)
  else (none, g)

/-- `rnd.shuffle(l)`: a stream-determined permutation of `l`. -/
def shuffle {α : Type} (g : Rng) (l : List α) : List α × Rng :=
  g.sampleAux l l.length

end Rng

/-- `random.Random(seed)`.  `mt` maps a concrete seed to its deterministic
stream; `env` is the ambient OS entropy used when `seed` is `None`. -/
def pyRandom (mt : Nat → Nat → Nat) (env : Nat → Nat) (seed : Option Nat) : Rng :=
  ⟨fun n => match seed with | some s => mt s n | none => env n, 0⟩

namespace Rng

theorem choice_mem {α : Type} [Inhabited α] (g : Rng) (l : List α) (hl : l ≠ []) :
    (g.choice l).1 ∈ l := by
  have hpos : 0 < l.length := List.length_pos.mpr hl
  have hlt : g.stream g.pos % l.length < l.length := Nat.mod_lt _ hpos
  simp only [choice, next, List.getD_eq_getElem?_getD, List.getElem?_eq_getElem hlt,
    Option.getD_some]
  exact List.getElem_mem hlt

theorem sampleAux_length {α : Type} :
    ∀ (k : Nat) (g : Rng) (l : List α), (g.sampleAux l k).1.length = min k l.length := by
  intro k
  induction k with
  | zero => intro g l; simp [sampleAux]
  | succ k ih =>
    intro g l
    by_cases h : l.length = 0
    · simp [sampleAux, h]
    · have hpos : 0 < l.length := Nat.pos_of_ne_zero h
      simp only [sampleAux, next, dif_neg h, List.length_cons, ih]
      have hlt : (g.stream g.pos) % l.length < l.length := Nat.mod_lt _ hpos
      rw [List.length_eraseIdx_of_lt hlt]
      omega

theorem sampleAux_subset {α : Type} :
    ∀ (k : Nat) (g : Rng) (l : List α), ∀ x ∈ (g.sampleAux l k).1, x ∈ l := by
  intro k
  induction k with
  | zero => intro g l x hx; simp [sampleAux] at hx
  | succ k ih =>
    intro g l x hx
    by_cases h : l.length = 0
    · simp [sampleAux, h] at hx
    · have hpos : 0 < l.length := Nat.pos_of_ne_zero h
      simp only [sampleAux, next, dif_neg h, List.mem_cons] at hx
      rcases hx with hx | hx
      · subst hx; exact List.get_mem _ _ _
      · exact List.eraseIdx_subset _ _ (ih _ _ _ hx)

/-- The element at the removed position is not in `l.eraseIdx i` when `l` has
no duplicates. -/
theorem get_not_mem_eraseIdx {α : Type} :
    ∀ (l : List α) (i : Nat) (h : i < l.length), l.Nodup →
      l.get ⟨i, h⟩ ∉ l.eraseIdx i := by
  intro l
  induction l with
  | nil => intro i h _; simp at h
  | cons a t ih =>
    intro i h hnd
    rcases List.nodup_cons.mp hnd with ⟨ha, ht⟩
    match i with
    | 0 => simpa [List.eraseIdx] using ha
    | Nat.succ j =>
      have hj : j < t.length := Nat.lt_of_succ_lt_succ h
      simp only [List.eraseIdx, List.get_cons_succ, List.mem_cons]
      rintro (hx | hx)
      · exact ha (hx ▸ List.get_mem t j hj)
      · exact ih j hj ht hx

theorem sampleAux_nodup {α : Type} :
    ∀ (k : Nat) (g : Rng) (l : List α), l.Nodup → (g.sampleAux l k).1.Nodup := by
  intro k
  induction k with
  | zero => intro g l _; simp [sampleAux]
  | succ k ih =>
    intro g l hnd
    by_cases h : l.length = 0
    · simp [sampleAux, h]
    · have hpos : 0 < l.length := Nat.pos_of_ne_zero h
      have hlt : (g.stream g.pos) % l.length < l.length := Nat.mod_lt _ hpos
      simp only [sampleAux, dif_neg h, List.nodup_cons]
      constructor
      · intro hmem
        exact get_not_mem_eraseIdx l _ hlt hnd (sampleAux_subset _ _ _ _ hmem)
      · exact ih _ _ (((List.eraseIdx_sublist l _)).nodup hnd)

theorem sample_eq_some {α : Type} {g : Rng} {l : List α} {k : Nat} {res : List α} {g' : Rng}
    (h : g.sample l k = (some res, g')) :
    res.length = k ∧ (∀ x ∈ res, x ∈ l) ∧ (l.Nodup → res.Nodup) := by
  by_cases hk : k ≤ l.length
  · simp only [sample, if_pos hk] at h
    obtain ⟨hres, _⟩ := Prod.mk.injEq .. ▸ h
    cases h
    refine ⟨?_, fun x hx => sampleAux_subset _ _ _ _ hx, fun hnd => sampleAux_nodup _ _ _ hnd⟩
    rw [sampleAux_length]; omega
  · simp [sample, if_neg hk] at h

theorem sample_isSome_of_le {α : Type} (g : Rng) (l : List α) (k : Nat) (hk : k ≤ l.length) :
    g.sample l k = (some (g.sampleAux l k).1, (g.sampleAux l k).2) := by
  simp [sample, if_pos hk]

end Rng

/-!
## Data model

A ticket (`Grid = List[List[Optional[int]]]` in both Python files) is a list of
rows, each row a list of cells, empty cells being `None`.  The generators below
always build 3 rows of 9 cells.
-/

/-- A ticket: rows of optional numbers (`Grid` in the Python sources). -/
abbrev Grid := List (List (Option Nat))

/-- `grid[r][c]` (reading out of range gives `none`; the generators only index
inside the 3×9 shape). -/
def cell (g : Grid) (r c : Nat) : Option Nat := (g.getD r []).getD c none

/-- `grid[row][col] = num`. -/
def setCell (g : Grid) (r c : Nat) (n : Nat) : Grid :=
  g.set r ((g.getD r []).set c (some n))

/-- `_default_col_ranges()` (identical in `main.py` and `game.py`):
`[range(1,10), range(10,20), ..., range(70,80), range(80,91)]`. -/
def _default_col_ranges : List (List Nat) :=
  [List.range' 1 9,        -- 1-9
   List.range' 10 10,      -- 10-19
   List.range' 20 10,
   List.range' 30 10,
   List.range' 40 10,
   List.range' 50 10,
   List.range' 60 10,
   List.range' 70 10,
   List.range' 80 11]      -- 80-90 inclusive

/-- `col_ranges[c]`. -/
def colRange (c : Nat) : List Nat := _default_col_ranges.getD c []

/-- Number of filled cells in row `r` of a 3×9 ticket. -/
def rowFilled (g : Grid) (r : Nat) : Nat :=
  (List.range 9).countP fun c => (cell g r c).isSome

/-- Number of filled cells in column `c` of a 3×9 ticket. -/
def colFilled (g : Grid) (c : Nat) : Nat :=
  (List.range 3).countP fun r => (cell g r c).isSome

/-- Total number of filled cells of a 3×9 ticket. -/
def filledCount (g : Grid) : Nat :=
  ((List.range 3).map fun r => rowFilled g r).sum

/-- `ticket_numbers_set(grid)`: the set of numbers present on a ticket
(`{n for row in grid for n in row if n is not None}`, identical in both
files). -/
def ticket_numbers_set (g : Grid) : Finset Nat :=
  (g.flatMap fun row => row.filterMap id).toFinset

/-!
## WinEvaluator (`check_line_complete`, `check_bingo_complete`)
-/

/-- The row test of `check_line_complete`: all non-`None` cells of the row are
in `drawn` (`None` cells are skipped by `continue`). -/
def rowAllDrawn (drawn : Finset Nat) (row : List (Option Nat)) : Bool :=
  row.all fun o => (o.map fun n => decide (n ∈ drawn)).getD true

/-- The `for r, row in enumerate(grid)` scan of `check_line_complete`,
carrying the index of the row at the head of the remaining list. -/
def lineScan (drawn : Finset Nat) : Grid → Nat → Option Nat
  | [], _ => none
  | row :: rest, r => if rowAllDrawn drawn row then some r else lineScan drawn rest (r + 1)

/-- `check_line_complete(grid, drawn)` from `main.py`: the index of the first
complete row, or `None`. -/
def check_line_complete (g : Grid) (drawn : Finset Nat) : Option Nat :=
  lineScan drawn g 0

/-- `validate_line_claim(grid, drawn)` from `main.py`. -/
def validate_line_claim (g : Grid) (drawn : Finset Nat) : Bool :=
  (check_line_complete g drawn).isSome

/-- `check_bingo_complete(grid, drawn)` from `main.py`: every non-`None` cell
of every row is in `drawn`. -/
def check_bingo_complete (g : Grid) (drawn : Finset Nat) : Bool :=
  g.all fun row => rowAllDrawn drawn row

/-- `check_bingo_complete(ticket, drawn)` from `game.py`:
`ticket_numbers_set(ticket).issubset(drawn)`. -/
def game_check_bingo_complete (g : Grid) (drawn : Finset Nat) : Bool :=
  ticket_numbers_set g ⊆ drawn

/-!
## `main.py` — `generate_ticket_9x3`

Constants from the source: `TARGET_NUMBERS = 15`, `ROWS = 3`, `COLS = 9`,
`MAX_PER_COL = 3`, `MIN_PER_COL = 1`.
-/

/-- One pass of the count-distribution loop in `main.py`
(`for _ in range(remaining): choices = [i for i in range(COLS) if counts[i] < MAX_PER_COL];
if not choices: break; c = rnd.choice(choices); counts[c] += 1`),
with `n` the number of iterations still to run. -/
def mainDistLoop : Nat → Rng → List Nat → List Nat × Rng
  | 0, g, counts => (counts, g)
  | n + 1, g, counts =>
    let choices := (List.range 9).filter fun i => counts.getD i 0 < 3
    if choices.isEmpty then (counts, g)
    else
      let p := g.choice choices
      mainDistLoop n p.2 (counts.set p.1 (counts.getD p.1 0 + 1))

/-- Column-number selection, shared logic of
`main.py`'s `[sorted(rnd.sample(col_ranges[i], counts[i])) for i in range(COLS)]`
and `game.py`'s per-column loop `nums = rnd.sample(pool, counts[c]); nums.sort()`.
Returns `none` when a `rnd.sample` raises `ValueError` (never reached: the
counts are at most 3 and every column range has at least 9 elements). -/
def sampleColumns (counts : List Nat) :
    List Nat → Rng → List (List Nat) → Option (List (List Nat)) × Rng
  | [], g, acc => (some acc, g)
  | c :: rest, g, acc =>
    match g.sample (colRange c) (counts.getD c 0) with
    | (none, g') => (none, g')
    | (some nums, g') => sampleColumns counts rest g' (acc ++ [nums.insertionSort (· ≤ ·)])

/-- `cols_order = sorted(range(COLS), key=lambda i: -counts[i])`: Python's
stable sort by descending count, i.e. the unique ordering by the linear order
"larger count first, ties by original (ascending) index". -/
def mainColsOrder (counts : List Nat) : List Nat :=
  (List.range 9).insertionSort fun i j =>
    counts.getD j 0 < counts.getD i 0 ∨ (counts.getD j 0 = counts.getD i 0 ∧ i ≤ j)

/-- The writes of one column's placement:
`for row_idx, num in zip(chosen_rows_sorted, nums): grid[row_idx][col] = num`. -/
def placeCol (g : Grid) (col : Nat) (pairs : List (Nat × Nat)) : Grid :=
  pairs.foldl (fun gr p => setCell gr p.1 col p.2) g

/-- The capacity updates of one column's placement:
`for row_idx, num in zip(...): capacities[row_idx] -= 1`. -/
def decCaps (caps : List Nat) (pairs : List (Nat × Nat)) : List Nat :=
  pairs.foldl (fun cp p => cp.set p.1 (cp.getD p.1 0 - 1)) caps

/-- The row-assignment / placement loop of `main.py` over `cols_order`: for
each column take the rows that still have capacity, fail if fewer than
`counts[col]` of them remain, otherwise `rnd.sample` that many rows, sort
them, and place the column's sorted numbers top-to-bottom. -/
def mainPlaceLoop (counts : List Nat) (colNums : List (List Nat)) :
    List Nat → Rng → List Nat → Grid → Option (List Nat × Grid) × Rng
  | [], g, caps, grid => (some (caps, grid), g)
  | col :: rest, g, caps, grid =>
    let k := counts.getD col 0
    let available_rows := (List.range 3).filter fun r => 0 < caps.getD r 0
    if available_rows.length < k then (none, g)   -- placement_failed
    else
      match g.sample available_rows k with
      | (none, g') => (none, g')                  -- unreachable given the guard
      | (some chosen_rows, g') =>
        let chosen_rows_sorted := chosen_rows.insertionSort (· ≤ ·)
        let pairs := chosen_rows_sorted.zip (colNums.getD col [])
        mainPlaceLoop counts colNums rest g' (decCaps caps pairs) (placeCol grid col pairs)

/-- One iteration of the `for attempt in range(1000)` body of `main.py`'s
`generate_ticket_9x3`.  `none` means `continue`. -/
def mainAttempt (g : Rng) : Option Grid × Rng :=
  let d := mainDistLoop (15 - 9) g (List.replicate 9 1)
  let counts := d.1
  if counts.sum = 15 then
    match sampleColumns counts (List.range 9) d.2 [] with
    | (none, g2) => (none, g2)
    | (some colNums, g2) =>
      match mainPlaceLoop counts colNums (mainColsOrder counts) g2 (List.replicate 3 (15 / 3))
          (List.replicate 3 (List.replicate 9 none)) with
      | (none, g3) => (none, g3)
      | (some (caps, grid), g3) =>
        if caps.all (· = 0) then (some grid, g3) else (none, g3)
  else (none, d.2)

/-- The retry loop `for attempt in range(1000)`; fuel counts the attempts that
remain.  Exhausting it models the closing `raise RuntimeError(...)`. -/
def mainAttempts : Nat → Rng → Option Grid × Rng
  | 0, g => (none, g)
  | n + 1, g =>
    match mainAttempt g with
    | (some grid, g') => (some grid, g')
    | (none, g') => mainAttempts n g'

/-- `generate_ticket_9x3(rnd)` from `main.py` (the seed-constructing default
`rnd = random.Random(seed)` is applied by the callers below). -/
def generate_ticket_9x3 (g : Rng) : Option Grid × Rng := mainAttempts 1000 g

/-!
## `main.py` — `generate_unique_tickets` and `NumberDrawer`
-/

/-- The inner `while attempts < max_attempts_per_ticket` loop of `main.py`'s
`generate_unique_tickets`, for one requested ticket.  The fuel is the number of
attempts left; `none` covers both the post-loop
`raise RuntimeError("Failed to generate a unique ticket ...")` and a
`RuntimeError` propagating out of `generate_ticket_9x3` itself. -/
def mainUniqueInner (seen : Finset (Finset Nat)) : Nat → Rng → Option (Grid × Rng)
  | 0, _ => none
  | a + 1, g =>
    match generate_ticket_9x3 g with
    | (none, _) => none
    | (some ticket, g') =>
      let key := ticket_numbers_set ticket
      if key.card ≠ 15 then mainUniqueInner seen a g'         -- sanity guard: regenerate
      else if key ∉ seen then some (ticket, g')
      else mainUniqueInner seen a g'

/-- The outer `for i in range(count)` loop of `main.py`'s
`generate_unique_tickets`. -/
def mainUniqueOuter : Nat → Rng → Finset (Finset Nat) → List Grid → Option (List Grid)
  | 0, _, _, tickets => some tickets
  | n + 1, g, seen, tickets =>
    match mainUniqueInner seen 5000 g with
    | none => none
    | some (t, g') => mainUniqueOuter n g' (insert (ticket_numbers_set t) seen) (tickets ++ [t])

/-- `generate_unique_tickets(count, seed)` from `main.py` (with the default
`max_attempts_per_ticket = 5000`).  `count` is a Python `int`, hence `Int`;
`count <= 0` returns `[]` before any randomness is created. -/
def generate_unique_tickets (mt : Nat → Nat → Nat) (env : Nat → Nat)
    (count : Int) (seed : Option Nat) : Option (List Grid) :=
  if count ≤ 0 then some []
  else mainUniqueOuter count.toNat (pyRandom mt env seed) ∅ []

/-- `NumberDrawer` state from `main.py`: the shuffled pool, the history of
drawn numbers, and the generator (unused after `reset`). -/
structure NumberDrawer where
  pool : List Nat
  history : List Nat
  rnd : Rng

/-- `NumberDrawer(seed=...)` from `main.py` (its `__init__` delegates to
`reset`): `self._rnd = random.Random(seed); self._pool = list(range(1, 91));
self._rnd.shuffle(self._pool); self._drawn = []`. -/
def NumberDrawer.init (mt : Nat → Nat → Nat) (env : Nat → Nat) (seed : Option Nat) :
    NumberDrawer :=
  let r := pyRandom mt env seed
  let p := r.shuffle (List.range' 1 90)
  ⟨p.1, [], p.2⟩

/-- `draw_next()` from `main.py`: `none` models the `StopIteration` raised on
an empty pool; otherwise pop the front and append it to the history. -/
def NumberDrawer.draw_next (d : NumberDrawer) : Option (Nat × NumberDrawer) :=
  match d.pool with
  | [] => none
  | n :: rest => some (n, ⟨rest, d.history ++ [n], d.rnd⟩)

/-- `remaining_count()` from `main.py`. -/
def NumberDrawer.remaining_count (d : NumberDrawer) : Nat := d.pool.length

/-- `k` successive calls of `draw_next` (stopping early on `StopIteration`). -/
def NumberDrawer.drawMany (d : NumberDrawer) : Nat → NumberDrawer
  | 0 => d
  | k + 1 =>
    match d.draw_next with
    | none => d
    | some (_, d') => d'.drawMany k

/-!
## `game.py` — `generate_ticket_9x3`

The count-distribution loop here is `while remaining > 0: c = rnd.choice(cols);
if counts[c] < 3: counts[c] += 1; remaining -= 1`.  Unlike `main.py`'s
`for _ in range(remaining)` this loop has **no** iteration bound, so it is
modelled with explicit fuel: `none` means the loop has not finished within
`fuel` iterations.
-/

/-- The `while remaining > 0` count-distribution loop of `game.py`. -/
def gameDistLoop : Nat → Rng → List Nat → Nat → Option (List Nat × Rng)
  | 0, g, counts, remaining => if remaining = 0 then some (counts, g) else none
  | fuel + 1, g, counts, remaining =>
    if remaining = 0 then some (counts, g)
    else
      let p := g.choice (List.range 9)   -- cols = list(range(9))
      if counts.getD p.1 0 < 3 then
        gameDistLoop fuel p.2 (counts.set p.1 (counts.getD p.1 0 + 1)) (remaining - 1)
      else
        gameDistLoop fuel p.2 counts remaining

/-- `cols_by_count[k]` in `game.py`: the columns with count `k`, in ascending
index order (built by a single `enumerate` pass). -/
def colsByCount (counts : List Nat) (k : Nat) : List Nat :=
  (List.range 9).filter fun i => counts.getD i 0 = k

/-- `sorted(range(3), key=lambda r: row_counts[r])[:2]`: the two rows with the
smallest current counts; Python's stable sort breaks ties by lower index. -/
def twoSmallest (rc : List Nat) : List Nat :=
  ((List.range 3).insertionSort fun r s =>
    rc.getD r 0 < rc.getD s 0 ∨ (rc.getD r 0 = rc.getD s 0 ∧ r ≤ s)).take 2

/-- `min(range(3), key=lambda r: row_counts[r])`: Python's `min` keeps the
first element on ties, i.e. a left fold that replaces the best candidate only
on a strictly smaller key. -/
def argminRow (rc : List Nat) : Nat :=
  [1, 2].foldl (fun best r => if rc.getD r 0 < rc.getD best 0 then r else best) 0

/-- Row-assignment state of `game.py`: `rows_for_col` (entry `[]` standing for
the initial `None`) and `row_counts`. -/
structure GameAssignSt where
  rowsFor : List (List Nat)
  rowCounts : List Nat

/-- `for c in cols_by_count[3]: rows_for_col[c] = [0, 1, 2];
row_counts = [rc + 1 for rc in row_counts]`. -/
def assign3 (st : GameAssignSt) (c : Nat) : GameAssignSt :=
  ⟨st.rowsFor.set c [0, 1, 2], st.rowCounts.map fun rc => rc + 1⟩

/-- `for c in cols_by_count[2]: idxs = sorted(range(3), key=...)[:2];
rows_for_col[c] = idxs; for r in idxs: row_counts[r] += 1`. -/
def assign2 (st : GameAssignSt) (c : Nat) : GameAssignSt :=
  let idxs := twoSmallest st.rowCounts
  ⟨st.rowsFor.set c idxs,
   idxs.foldl (fun rcs r => rcs.set r (rcs.getD r 0 + 1)) st.rowCounts⟩

/-- `for c in cols_by_count[1]: r = min(range(3), key=...);
rows_for_col[c] = [r]; row_counts[r] += 1`. -/
def assign1 (st : GameAssignSt) (c : Nat) : GameAssignSt :=
  let r0 := argminRow st.rowCounts
  ⟨st.rowsFor.set c [r0], st.rowCounts.set r0 (st.rowCounts.getD r0 0 + 1)⟩

/-- The full greedy row assignment of `game.py`: 3-count columns first, then
2-count, then 1-count, starting from `row_counts = [0, 0, 0]` and
`rows_for_col = [None] * 9`. -/
def gameAssign (counts : List Nat) : GameAssignSt :=
  let st0 : GameAssignSt := ⟨List.replicate 9 [], [0, 0, 0]⟩
  let st3 := (colsByCount counts 3).foldl assign3 st0
  let st2 := (colsByCount counts 2).foldl assign2 st3
  (colsByCount counts 1).foldl assign1 st2

/-- Grid construction of `game.py`: for each column place its sorted numbers
into its sorted assigned rows, top to bottom. -/
def buildGrid (rowsFor : List (List Nat)) (colNums : List (List Nat)) : Grid :=
  (List.range 9).foldl
    (fun gr c => placeCol gr c
      (((rowsFor.getD c []).insertionSort (· ≤ ·)).zip (colNums.getD c [])))
    (List.replicate 3 (List.replicate 9 none))

/-- `generate_ticket_9x3(rnd)` from `game.py`, with `fuel` bounding the
distribution loop (the Python loop is unbounded).  The
`assert all(rc == 5 for rc in row_counts)` is modelled as a guard returning
`none` (an `AssertionError`). -/
def game_generate_ticket_9x3 (fuel : Nat) (g : Rng) : Option (Grid × Rng) :=
  match gameDistLoop fuel g (List.replicate 9 1) (15 - 9) with
  | none => none
  | some (counts, g1) =>
    match sampleColumns counts (List.range 9) g1 [] with
    | (none, _) => none                     -- ValueError (never reached)
    | (some colNums, g2) =>
      let st := gameAssign counts
      if st.rowCounts.all (· = 5) then some (buildGrid st.rowsFor colNums, g2)
      else none                             -- assert failure

/-- The `while len(tickets) < count and attempts < count * 50` loop of
`game.py`'s `generate_unique_tickets`; the `Nat` argument is the number of
attempts still allowed.  On exit, `if len(tickets) < count: raise RuntimeError`
becomes `none`. -/
def gameUniqueLoop (fuel : Nat) (count : Int) :
    Nat → Rng → Finset (Finset Nat) → List Grid → Option (List Grid)
  | 0, _, _, tickets => if (tickets.length : Int) < count then none else some tickets
  | a + 1, g, seen, tickets =>
    if (tickets.length : Int) < count then
      match game_generate_ticket_9x3 fuel g with
      | none => none
      | some (t, g') =>
        let s := ticket_numbers_set t
        if s ∉ seen then gameUniqueLoop fuel count a g' (insert s seen) (tickets ++ [t])
        else gameUniqueLoop fuel count a g' seen tickets
    else some tickets

/-- `generate_unique_tickets(count, seed)` from `game.py` (with `fuel` passed
through to the unbounded inner generator). -/
def game_generate_unique_tickets (fuel : Nat) (mt : Nat → Nat → Nat) (env : Nat → Nat)
    (count : Int) (seed : Option Nat) : Option (List Grid) :=
  gameUniqueLoop fuel count (count * 50).toNat (pyRandom mt env seed) ∅ []

/-!
## Specification-level predicates

These state, in the claims' own vocabulary, what the code-level functions
satisfy; the theorems connect them to the definitions above.
-/

/-- Every non-empty cell of the row is contained in `marked`. -/
def RowCovered (marked : Finset Nat) (row : List (Option Nat)) : Prop :=
  ∀ o ∈ row, ∀ n : Nat, o = some n → n ∈ marked

instance decidableOptionEqImp (o : Option Nat) (p : Nat → Prop) [DecidablePred p] :
    Decidable (∀ n, o = some n → p n) :=
  match o with
  | none => isTrue (by intro n h; cases h)
  | some a => decidable_of_iff (p a)
      ⟨fun h n hn => by cases hn; exact h, fun h => h a rfl⟩

instance (marked : Finset Nat) (row : List (Option Nat)) :
    Decidable (RowCovered marked row) :=
  inferInstanceAs (Decidable (∀ o ∈ row, ∀ n, o = some n → n ∈ marked))

/-- The column ranges as *claim C6* words them: column `c` holds values in
`[10c+1, 10c+10)`, except that column 0 starts at 1 and column 8 extends to 90
inclusive. -/
def claimColRange (c v : Nat) : Prop :=
  (if c = 0 then 1 else 10 * c + 1) ≤ v ∧ (if c = 8 then v ≤ 90 else v < 10 * c + 10)

instance (c v : Nat) : Decidable (claimColRange c v) := by
  unfold claimColRange; infer_instance

/-- The column ranges as the code has them: column `c` holds values in
`[10c, 10(c+1))`, except that column 0 starts at 1 and column 8 extends to 90
inclusive. -/
def codeColRange (c v : Nat) : Prop :=
  (if c = 0 then 1 else 10 * c) ≤ v ∧ (if c = 8 then v ≤ 90 else v < 10 * c + 10)

instance (c v : Nat) : Decidable (codeColRange c v) := by
  unfold codeColRange; infer_instance

/-- Strictly increasing top-to-bottom inside every column of a 3×9 ticket. -/
def ColsIncreasing (g : Grid) : Prop :=
  ∀ c < 9, ∀ r r' : Nat, r < r' → r' < 3 →
    ∀ n n' : Nat, cell g r c = some n → cell g r' c = some n' → n < n'

/-- The ticket invariant of claim C1: a 3-row × 9-column grid, 15 filled
cells, 5 per row, 1–3 per column, values inside the column's fixed range,
strictly increasing per column. -/
def ValidTicket (g : Grid) : Prop :=
  g.length = 3 ∧ (∀ row ∈ g, row.length = 9) ∧
  filledCount g = 15 ∧
  (∀ r < 3, rowFilled g r = 5) ∧
  (∀ c < 9, 1 ≤ colFilled g c ∧ colFilled g c ≤ 3) ∧
  (∀ r < 3, ∀ c < 9, ∀ n : Nat, cell g r c = some n → n ∈ colRange c) ∧
  ColsIncreasing g

/-!
## Win evaluation: row/ticket coverage
-/

theorem rowAllDrawn_iff (drawn : Finset Nat) (row : List (Option Nat)) :
    rowAllDrawn drawn row = true ↔ RowCovered drawn row := by
  unfold rowAllDrawn RowCovered
  rw [List.all_eq_true]
  constructor
  · intro h o ho n hn
    have := h o ho
    subst hn
    simpa using this
  · intro h o ho
    cases o with
    | none => simp
    | some n => simpa using h _ ho n rfl

theorem mem_ticket_numbers_set (g : Grid) (n : Nat) :
    n ∈ ticket_numbers_set g ↔ ∃ row ∈ g, some n ∈ row := by
  unfold ticket_numbers_set
  simp [List.mem_flatMap, List.mem_filterMap]

/-- Characterisation of the `enumerate` scan: starting at index `k`, the scan
returns `k + i` for the first row offset `i` whose row is covered. -/
theorem lineScan_eq_some (drawn : Finset Nat) :
    ∀ (l : Grid) (k j : Nat),
      lineScan drawn l k = some j ↔
        ∃ i, j = k + i ∧ i < l.length ∧ RowCovered drawn (l.getD i []) ∧
          ∀ i' < i, ¬ RowCovered drawn (l.getD i' []) := by
  intro l
  induction l with
  | nil => intro k j; simp [lineScan]
  | cons row rest ih =>
    intro k j
    by_cases h : rowAllDrawn drawn row = true
    · simp only [lineScan, if_pos h]
      constructor
      · intro hj
        cases hj
        exact ⟨0, by omega, by simp, by simpa using (rowAllDrawn_iff drawn row).mp h,
          by omega⟩
      · rintro ⟨i, hj, hi, hcov, hmin⟩
        match i with
        | 0 => simp [hj]
        | i' + 1 => exact absurd ((rowAllDrawn_iff drawn row).mp h) (by simpa using hmin 0 (by omega))
    · simp only [lineScan, if_neg h]
      rw [ih (k + 1) j]
      constructor
      · rintro ⟨i, hj, hi, hcov, hmin⟩
        refine ⟨i + 1, by omega, by simp; omega, by simpa using hcov, ?_⟩
        intro i' hi'
        match i' with
        | 0 => simpa using fun hc => h ((rowAllDrawn_iff drawn row).mpr hc)
        | i'' + 1 => simpa using hmin i'' (by omega)
      · rintro ⟨i, hj, hi, hcov, hmin⟩
        match i with
        | 0 =>
          exact absurd ((rowAllDrawn_iff drawn row).mpr (by simpa using hcov)) (by simp [h])
        | i' + 1 =>
          refine ⟨i', by omega, by simpa using hi, by simpa using hcov, ?_⟩
          intro i'' hi''
          simpa using hmin (i'' + 1) (by omega)

theorem lineScan_eq_none (drawn : Finset Nat) :
    ∀ (l : Grid) (k : Nat),
      lineScan drawn l k = none ↔ ∀ row ∈ l, ¬ RowCovered drawn row := by
  intro l
  induction l with
  | nil => intro k; simp [lineScan]
  | cons row rest ih =>
    intro k
    by_cases h : rowAllDrawn drawn row = true
    · simp only [lineScan, if_pos h]
      simp only [List.mem_cons]
      constructor
      · intro hc; cases hc
      · intro hall
        exact absurd ((rowAllDrawn_iff drawn row).mp h) (hall row (Or.inl rfl))
    · simp only [lineScan, if_neg h]
      rw [ih (k + 1)]
      constructor
      · intro hall r hr
        rcases List.mem_cons.mp hr with hr | hr
        · subst hr; exact fun hc => h ((rowAllDrawn_iff drawn r).mpr hc)
        · exact hall r hr
      · intro hall r hr
        exact hall r (List.mem_cons_of_mem _ hr)

/-- **C2.** For every ticket and every set of marked numbers,
`check_line_complete` returns the smallest row index whose non-empty cells are
all contained in the marked set, and returns `None` exactly when no row has
all its non-empty cells contained in the marked set. -/
theorem claim_C2_check_line_complete (g : Grid) (drawn : Finset Nat) :
    (∀ j : Nat, check_line_complete g drawn = some j ↔
       (j < g.length ∧ RowCovered drawn (g.getD j []) ∧
        ∀ j' < j, ¬ RowCovered drawn (g.getD j' []))) ∧
    (check_line_complete g drawn = none ↔ ∀ row ∈ g, ¬ RowCovered drawn row) := by
  constructor
  · intro j
    rw [check_line_complete, lineScan_eq_some]
    constructor
    · rintro ⟨i, hj, hi, hcov, hmin⟩
      have : j = i := by omega
      subst this
      exact ⟨hi, hcov, hmin⟩
    · rintro ⟨hj, hcov, hmin⟩
      exact ⟨j, by omega, hj, hcov, hmin⟩
  · exact lineScan_eq_none drawn g 0

def c2grid : Grid :=
  [[some 5, none, none, none, none, none, none, none, none],
   [some 11, none, none, some 34, none, none, none, some 72, none],
   [none, none, none, none, none, some 6, none, none, none]]

def c2marked : Finset Nat := {11, 34, 72}

/-- Witness for C2, the worked example of the specification: row 1 is
`[11, None, None, 34, None, None, None, 72, None]` and marking `{11, 34, 72}`
reports row index 1. -/
theorem claim_C2_witness : check_line_complete c2grid c2marked = some 1 :=
  ((claim_C2_check_line_complete c2grid c2marked).1 1).mpr
    ⟨by decide, by decide, by decide⟩

/-- **C3.** For every ticket and every set of marked numbers, both files'
`check_bingo_complete` return `true` if and only if every number on the ticket
is a member of the marked set. -/
theorem claim_C3_check_bingo_complete (g : Grid) (drawn : Finset Nat) :
    (check_bingo_complete g drawn = true ↔ ∀ n ∈ ticket_numbers_set g, n ∈ drawn) ∧
    (game_check_bingo_complete g drawn = true ↔ ∀ n ∈ ticket_numbers_set g, n ∈ drawn) := by
  constructor
  · unfold check_bingo_complete
    rw [List.all_eq_true]
    constructor
    · intro h n hn
      rcases (mem_ticket_numbers_set g n).mp hn with ⟨row, hrow, hmem⟩
      exact (rowAllDrawn_iff drawn row).mp (h row hrow) _ hmem n rfl
    · intro h row hrow
      rw [rowAllDrawn_iff]
      intro o ho n hn
      exact h n ((mem_ticket_numbers_set g n).mpr ⟨row, hrow, hn ▸ ho⟩)
  · unfold game_check_bingo_complete
    rw [decide_eq_true_eq, Finset.subset_iff]

def c3grid : Grid :=
  [[some 1, some 22, none], [none, some 47, some 81], [some 90, none, none]]

def c3marked : Finset Nat := {1, 22, 47, 81, 90}

/-- Witness for C3: a grid all of whose numbers are marked is reported as a
full bingo by both implementations. -/
theorem claim_C3_witness :
    check_bingo_complete c3grid c3marked = true ∧
    game_check_bingo_complete c3grid c3marked = true :=
  ⟨(claim_C3_check_bingo_complete c3grid c3marked).1.mpr (by decide),
   (claim_C3_check_bingo_complete c3grid c3marked).2.mpr (by decide)⟩

/-- **C5.** `generate_unique_tickets` is deterministic in its seed: with a
seed supplied, the result (the full ordered list of tickets) is a function of
the seed and the count alone — the ambient entropy `env` (the only other
source of randomness `random.Random` can draw on) does not influence it.
This holds for both files' implementations, for every count and every
distribution-loop fuel. -/
theorem claim_C5_unique_tickets_deterministic (mt : Nat → Nat → Nat)
    (env env' : Nat → Nat) (count : Int) (s : Nat) (fuel : Nat) :
    generate_unique_tickets mt env count (some s) =
      generate_unique_tickets mt env' count (some s) ∧
    game_generate_unique_tickets fuel mt env count (some s) =
      game_generate_unique_tickets fuel mt env' count (some s) :=
  ⟨rfl, rfl⟩

/-!
## List toolkit: `set`/`getD`/`countP` interplay
-/

theorem getD_set_self {α : Type} {l : List α} {i : Nat} (h : i < l.length) (x d : α) :
    (l.set i x).getD i d = x := by
  rw [List.getD_eq_getElem?_getD, List.getElem?_set_self (by simpa using h)]
  rfl

theorem getD_set_ne {α : Type} {l : List α} {i j : Nat} (h : i ≠ j) (x d : α) :
    (l.set i x).getD j d = l.getD j d := by
  rw [List.getD_eq_getElem?_getD, List.getElem?_set_ne h, ← List.getD_eq_getElem?_getD]

/-- Replacing one distinguished element's predicate value shifts `countP` by
the two indicator values. -/
theorem countP_single_change {l : List Nat} (hnd : l.Nodup) {i : Nat} (hi : i ∈ l)
    (p q : Nat → Bool) (hsame : ∀ j ∈ l, j ≠ i → p j = q j) :
    l.countP p + (if q i then 1 else 0) = l.countP q + (if p i then 1 else 0) := by
  have hperm : List.Perm l (i :: l.erase i) := List.perm_cons_erase hi
  have hrest : ∀ j ∈ l.erase i, p j = q j := by
    intro j hj
    have hj' := (List.Nodup.mem_erase_iff hnd).mp hj
    exact hsame j hj'.2 hj'.1
  have hcong : (l.erase i).countP p = (l.erase i).countP q :=
    List.countP_congr (by intro x hx; simp [hrest x hx])
  rw [hperm.countP_eq p, hperm.countP_eq q]
  simp only [List.countP_cons, hcong]
  by_cases hp : p i <;> by_cases hq : q i <;> simp [hp, hq]

/-- A duplicate-free list of naturals below 3 has as many elements as the
indices of `range 3` it contains. -/
theorem length_eq_countP_mem {fst : List Nat} (hnd : fst.Nodup) (hsub : ∀ x ∈ fst, x < 3) :
    (List.range 3).countP (fun r => decide (r ∈ fst)) = fst.length := by
  rw [List.countP_eq_length_filter]
  have hperm : List.Perm ((List.range 3).filter fun r => decide (r ∈ fst)) fst := by
    rw [List.perm_ext_iff_of_nodup (List.Nodup.filter _ (List.nodup_range 3)) hnd]
    intro a
    simp only [List.mem_filter, List.mem_range, decide_eq_true_eq]
    exact ⟨fun h => h.2, fun h => ⟨hsub a h, h⟩⟩
  exact hperm.length_eq

/-!
## `setCell` and `placeCol` cell-level lemmas
-/

theorem length_setCell (g : Grid) (r c n : Nat) : (setCell g r c n).length = g.length := by
  simp [setCell]

theorem setCell_row_length (g : Grid) (r c n r' : Nat) :
    ((setCell g r c n).getD r' []).length = (g.getD r' []).length := by
  unfold setCell
  by_cases hrr : r = r'
  · subst hrr
    by_cases hr : r < g.length
    · rw [getD_set_self hr]; simp
    · rw [List.set_eq_of_length_le (by omega)]
  · rw [getD_set_ne hrr]

theorem cell_setCell_ne (g : Grid) {r c r' c' : Nat} (h : r' ≠ r ∨ c' ≠ c) (n : Nat) :
    cell (setCell g r c n) r' c' = cell g r' c' := by
  unfold cell setCell
  rcases h with h | h
  · rw [getD_set_ne (fun he => h he.symm)]
  · by_cases hrr : r = r'
    · subst hrr
      by_cases hr : r < g.length
      · rw [getD_set_self hr, getD_set_ne (fun he => h he.symm)]
      · rw [List.set_eq_of_length_le (by omega)]
    · rw [getD_set_ne hrr]

theorem cell_setCell_self (g : Grid) {r c : Nat} (hr : r < g.length)
    (hc : c < (g.getD r []).length) (n : Nat) :
    cell (setCell g r c n) r c = some n := by
  unfold cell setCell
  rw [getD_set_self hr, getD_set_self (by simpa using hc)]

theorem placeCol_length (col : Nat) :
    ∀ (pairs : List (Nat × Nat)) (g : Grid), (placeCol g col pairs).length = g.length := by
  intro pairs
  induction pairs with
  | nil => intro g; rfl
  | cons hd tl ih =>
    intro g
    show (placeCol (setCell g hd.1 col hd.2) col tl).length = _
    rw [ih, length_setCell]

theorem placeCol_row_length (col : Nat) :
    ∀ (pairs : List (Nat × Nat)) (g : Grid) (r : Nat),
      ((placeCol g col pairs).getD r []).length = ((g.getD r []).length) := by
  intro pairs
  induction pairs with
  | nil => intro g r; rfl
  | cons hd tl ih =>
    intro g r
    show (((placeCol (setCell g hd.1 col hd.2) col tl)).getD r []).length = _
    rw [ih, setCell_row_length]

theorem cell_placeCol_ne_col (col : Nat) {c : Nat} (hc : c ≠ col) :
    ∀ (pairs : List (Nat × Nat)) (g : Grid) (r : Nat),
      cell (placeCol g col pairs) r c = cell g r c := by
  intro pairs
  induction pairs with
  | nil => intro g r; rfl
  | cons hd tl ih =>
    intro g r
    show cell (placeCol (setCell g hd.1 col hd.2) col tl) r c = _
    rw [ih, cell_setCell_ne _ (Or.inr hc)]

theorem cell_placeCol_not_fst (col : Nat) :
    ∀ (pairs : List (Nat × Nat)) (g : Grid) (r : Nat),
      r ∉ pairs.map Prod.fst →
      cell (placeCol g col pairs) r col = cell g r col := by
  intro pairs
  induction pairs with
  | nil => intro g r _; rfl
  | cons hd tl ih =>
    intro g r hr
    simp only [List.map_cons, List.mem_cons, not_or] at hr
    show cell (placeCol (setCell g hd.1 col hd.2) col tl) r col = _
    rw [ih _ _ hr.2, cell_setCell_ne _ (Or.inl hr.1)]

theorem cell_placeCol_mem (col : Nat) :
    ∀ (pairs : List (Nat × Nat)) (g : Grid) (r n : Nat),
      (pairs.map Prod.fst).Nodup → (r, n) ∈ pairs →
      r < g.length → col < (g.getD r []).length →
      cell (placeCol g col pairs) r col = some n := by
  intro pairs
  induction pairs with
  | nil => intro g r n _ hmem; cases hmem
  | cons hd tl ih =>
    intro g r n hnd hmem hr hcol
    simp only [List.map_cons, List.nodup_cons] at hnd
    rcases List.mem_cons.mp hmem with hmem | hmem
    · subst hmem
      show cell (placeCol (setCell g r col n) col tl) r col = some n
      rw [cell_placeCol_not_fst col tl _ r hnd.1,
        cell_setCell_self g hr hcol]
    · show cell (placeCol (setCell g hd.1 col hd.2) col tl) r col = some n
      exact ih _ r n hnd.2 hmem (by rwa [length_setCell])
        (by rwa [setCell_row_length])

/-!
## One column's placement: effect on row/column statistics
-/

theorem cell_placeCol_isSome {g : Grid} {col : Nat} {pairs : List (Nat × Nat)} {r : Nat}
    (hnd : (pairs.map Prod.fst).Nodup)
    (hempty : cell g r col = none) (hr3 : r < g.length)
    (hc9 : col < (g.getD r []).length) :
    (cell (placeCol g col pairs) r col).isSome = decide (r ∈ pairs.map Prod.fst) := by
  by_cases hmem : r ∈ pairs.map Prod.fst
  · rcases List.mem_map.mp hmem with ⟨pr, hpr, hfst⟩
    have : cell (placeCol g col pairs) r col = some pr.2 := by
      have : (pr.1, pr.2) ∈ pairs := by simpa using hpr
      exact cell_placeCol_mem col pairs g r pr.2 hnd (hfst ▸ this) hr3 hc9
    simp [this, hmem]
  · rw [cell_placeCol_not_fst col pairs g r hmem, hempty]
    simp [hmem]

theorem cell_placeCol_eq_some {g : Grid} {col : Nat} {pairs : List (Nat × Nat)} {r n : Nat}
    (hnd : (pairs.map Prod.fst).Nodup)
    (hempty : cell g r col = none) (hr3 : r < g.length)
    (hc9 : col < (g.getD r []).length) :
    cell (placeCol g col pairs) r col = some n ↔ (r, n) ∈ pairs := by
  constructor
  · intro h
    by_cases hmem : r ∈ pairs.map Prod.fst
    · rcases List.mem_map.mp hmem with ⟨pr, hpr, hfst⟩
      have hpr' : (pr.1, pr.2) ∈ pairs := by simpa using hpr
      have := cell_placeCol_mem col pairs g r pr.2 hnd (hfst ▸ hpr') hr3 hc9
      rw [this] at h
      cases h
      exact hfst ▸ hpr'
    · rw [cell_placeCol_not_fst col pairs g r hmem, hempty] at h
      cases h
  · intro h
    exact cell_placeCol_mem col pairs g r n hnd h hr3 hc9

theorem rowFilled_placeCol {g : Grid} {col : Nat} {pairs : List (Nat × Nat)} {r : Nat}
    (hcol : col < 9)
    (hnd : (pairs.map Prod.fst).Nodup)
    (hempty : cell g r col = none) (hr3 : r < g.length)
    (hc9 : col < (g.getD r []).length) :
    rowFilled (placeCol g col pairs) r =
      rowFilled g r + (if r ∈ pairs.map Prod.fst then 1 else 0) := by
  unfold rowFilled
  have key := countP_single_change (List.nodup_range 9) (List.mem_range.mpr hcol)
    (fun c => (cell (placeCol g col pairs) r c).isSome)
    (fun c => (cell g r c).isSome)
    (fun j _ hj => by
      show (cell (placeCol g col pairs) r j).isSome = (cell g r j).isSome
      rw [cell_placeCol_ne_col col hj])
  simp only at key
  simp only [cell_placeCol_isSome hnd hempty hr3 hc9, hempty, Option.isSome_none,
    if_false] at key
  by_cases hmem : r ∈ pairs.map Prod.fst <;> simp [hmem] at key ⊢ <;> omega

theorem colFilled_placeCol_self {g : Grid} {col : Nat} {pairs : List (Nat × Nat)}
    (hnd : (pairs.map Prod.fst).Nodup)
    (hfst3 : ∀ x ∈ pairs.map Prod.fst, x < 3)
    (hempty : ∀ r < 3, cell g r col = none)
    (hlen : g.length = 3)
    (hrows : ∀ r < 3, col < (g.getD r []).length) :
    colFilled (placeCol g col pairs) col = (pairs.map Prod.fst).length := by
  unfold colFilled
  rw [← length_eq_countP_mem hnd hfst3]
  apply List.countP_congr
  intro r hr
  have hr3 := List.mem_range.mp hr
  rw [cell_placeCol_isSome hnd (hempty r hr3) (hlen ▸ hr3) (hrows r hr3)]

theorem colFilled_placeCol_ne {g : Grid} {col c : Nat} (hc : c ≠ col)
    (pairs : List (Nat × Nat)) :
    colFilled (placeCol g col pairs) c = colFilled g c := by
  unfold colFilled
  apply List.countP_congr
  intro r _
  rw [cell_placeCol_ne_col col hc]

theorem getD_decCaps {caps : List Nat} {pairs : List (Nat × Nat)} :
    ∀ (r : Nat), (pairs.map Prod.fst).Nodup → (∀ x ∈ pairs.map Prod.fst, x < caps.length) →
    (decCaps caps pairs).getD r 0 =
      caps.getD r 0 - (if r ∈ pairs.map Prod.fst then 1 else 0) := by
  induction pairs generalizing caps with
  | nil => intro r _ _; simp [decCaps]
  | cons hd tl ih =>
    intro r hnd hlt
    simp only [List.map_cons, List.nodup_cons] at hnd
    have hlt' : ∀ x ∈ tl.map Prod.fst, x < (caps.set hd.1 (caps.getD hd.1 0 - 1)).length := by
      intro x hx
      rw [List.length_set]
      exact hlt x (by simp [hx])
    show (decCaps (caps.set hd.1 (caps.getD hd.1 0 - 1)) tl).getD r 0 = _
    rw [ih r hnd.2 hlt']
    by_cases hr : r = hd.1
    · rw [hr, getD_set_self (hlt _ (by simp))]
      have h1 : hd.1 ∉ List.map Prod.fst tl := hnd.1
      simp [h1]
    · rw [getD_set_ne (fun he => hr he.symm)]
      by_cases hmem : r ∈ tl.map Prod.fst <;> simp [hmem, hr]

theorem decCaps_length (caps : List Nat) (pairs : List (Nat × Nat)) :
    (decCaps caps pairs).length = caps.length := by
  induction pairs generalizing caps with
  | nil => rfl
  | cons hd tl ih =>
    show (decCaps (caps.set hd.1 (caps.getD hd.1 0 - 1)) tl).length = _
    rw [ih, List.length_set]

/-- Strict monotonicity along a zip of two strictly sorted lists. -/
theorem zip_strictMono {rows nums : List Nat}
    (hrows : List.Pairwise (· < ·) rows) (hnums : List.Pairwise (· < ·) nums)
    {r n r' n' : Nat}
    (h1 : (r, n) ∈ rows.zip nums) (h2 : (r', n') ∈ rows.zip nums) (hrr : r < r') :
    n < n' := by
  rcases List.mem_iff_getElem.mp h1 with ⟨i, hi, hget1⟩
  rcases List.mem_iff_getElem.mp h2 with ⟨j, hj, hget2⟩
  rw [List.getElem_zip] at hget1 hget2
  have hilen : i < rows.length := lt_of_lt_of_le hi (by simp [List.length_zip])
  have hjlen : j < rows.length := lt_of_lt_of_le hj (by simp [List.length_zip])
  have hinum : i < nums.length := lt_of_lt_of_le hi (by simp [List.length_zip])
  have hjnum : j < nums.length := lt_of_lt_of_le hj (by simp [List.length_zip])
  have hij : i < j := by
    rcases Nat.lt_trichotomy i j with h | h | h
    · exact h
    · exfalso; subst h
      have : r = r' := by
        have e1 : rows[i] = r := congrArg Prod.fst hget1
        have e2 : rows[i] = r' := congrArg Prod.fst hget2
        omega
      omega
    · exfalso
      have := (List.pairwise_iff_getElem.mp hrows) j i hjlen hilen h
      have e1 : rows[i] = r := congrArg Prod.fst hget1
      have e2 : rows[j] = r' := congrArg Prod.fst hget2
      omega
  have := (List.pairwise_iff_getElem.mp hnums) i j hinum hjnum hij
  have e1 : nums[i] = n := congrArg Prod.snd hget1
  have e2 : nums[j] = n' := congrArg Prod.snd hget2
  omega

/-!
## The placement loop of `main.py`: global invariant
-/

theorem mainPlaceLoop_spec (counts : List Nat) (colNums : List (List Nat)) :
    ∀ (l : List Nat) (g : Rng) (caps : List Nat) (grid : Grid)
      (caps' : List Nat) (grid' : Grid) (g' : Rng),
      mainPlaceLoop counts colNums l g caps grid = (some (caps', grid'), g') →
      l.Nodup → (∀ c ∈ l, c < 9) →
      caps.length = 3 →
      grid.length = 3 → (∀ r < 3, (grid.getD r []).length = 9) →
      (∀ c ∈ l, ∀ r < 3, cell grid r c = none) →
      (∀ c ∈ l, (colNums.getD c []).length = counts.getD c 0 ∧
        List.Pairwise (· < ·) (colNums.getD c [])) →
      caps'.length = 3 ∧ grid'.length = 3 ∧ (∀ r < 3, (grid'.getD r []).length = 9) ∧
      (∀ r < 3, caps'.getD r 0 + rowFilled grid' r = caps.getD r 0 + rowFilled grid r) ∧
      (∀ c, c ∉ l → ∀ r < 3, cell grid' r c = cell grid r c) ∧
      (∀ c ∈ l, colFilled grid' c = counts.getD c 0 ∧
        (∀ r < 3, ∀ n : Nat, cell grid' r c = some n → n ∈ colNums.getD c []) ∧
        (∀ r r' : Nat, r < r' → r' < 3 → ∀ n n' : Nat, cell grid' r c = some n →
          cell grid' r' c = some n' → n < n')) := by
  intro l
  induction l with
  | nil =>
    intro g caps grid caps' grid' g' h _ _ hcapslen hgl hgrows _ _
    simp only [mainPlaceLoop, Prod.mk.injEq, Option.some.injEq] at h
    obtain ⟨⟨hc, hg⟩, _⟩ := h
    subst hc; subst hg
    refine ⟨hcapslen, hgl, hgrows, fun r _ => rfl, fun c _ r _ => rfl, fun c hc => absurd hc (by simp)⟩
  | cons col rest ih =>
    intro g caps grid caps' grid' g' h hnd hlt9 hcapslen hgl hgrows hempty hnums
    rw [List.nodup_cons] at hnd
    have hcol9 : col < 9 := hlt9 col (by simp)
    have hnumcol := hnums col (by simp)
    simp only [mainPlaceLoop] at h
    by_cases hav : ((List.range 3).filter fun r => 0 < caps.getD r 0).length < counts.getD col 0
    · rw [if_pos hav] at h; simp at h
    · rw [if_neg hav] at h
      rcases hsmp : Rng.sample g ((List.range 3).filter fun r => 0 < caps.getD r 0)
          (counts.getD col 0) with ⟨os, g1⟩
      rw [hsmp] at h
      cases os with
      | none => simp at h
      | some chosen =>
        obtain ⟨hchlen, hchsub, hchnd'⟩ := Rng.sample_eq_some hsmp
        have havnd : ((List.range 3).filter fun r => 0 < caps.getD r 0).Nodup :=
          List.Nodup.filter _ (List.nodup_range 3)
        have hchnd := hchnd' havnd
        set rows := chosen.insertionSort (· ≤ ·) with hrows_def
        have hrperm : List.Perm rows chosen := List.perm_insertionSort _ _
        have hrnd : rows.Nodup := hrperm.nodup_iff.mpr hchnd
        have hrlen : rows.length = counts.getD col 0 := hrperm.length_eq.trans hchlen
        have hrsorted : List.Pairwise (· ≤ ·) rows := List.sorted_insertionSort _ _
        have hrlt : List.Pairwise (· < ·) rows := List.Sorted.lt_of_le hrsorted hrnd
        have hrmem : ∀ r ∈ rows, r < 3 ∧ 0 < caps.getD r 0 := by
          intro r hr
          have := hchsub r (hrperm.mem_iff.mp hr)
          have := List.mem_filter.mp this
          exact ⟨List.mem_range.mp this.1, by simpa using this.2⟩
        set nums := colNums.getD col [] with hnums_def
        set pairs := rows.zip nums with hpairs_def
        have hfst : pairs.map Prod.fst = rows :=
          List.map_fst_zip rows nums (by rw [hrlen, hnumcol.1])
        have hfstnd : (pairs.map Prod.fst).Nodup := hfst ▸ hrnd
        have hfst3 : ∀ x ∈ pairs.map Prod.fst, x < 3 := by
          intro x hx; exact (hrmem x (hfst ▸ hx)).1
        have hfstcaps : ∀ x ∈ pairs.map Prod.fst, x < caps.length := by
          intro x hx; rw [hcapslen]; exact (hrmem x (hfst ▸ hx)).1
        have ihapp := ih g1 (decCaps caps pairs) (placeCol grid col pairs) caps' grid' g' h
          hnd.2 (fun c hc => hlt9 c (by simp [hc]))
          (by rw [decCaps_length, hcapslen])
          (by rw [placeCol_length, hgl])
          (fun r hr => by rw [placeCol_row_length]; exact hgrows r hr)
          (fun c hc r hr => by
            rw [cell_placeCol_ne_col col (fun he => hnd.1 (he ▸ hc))]
            exact hempty c (by simp [hc]) r hr)
          (fun c hc => hnums c (by simp [hc]))
        obtain ⟨icl, igl, igrows, icons, iun, icols⟩ := ihapp
        have hgridlen3 : grid.length = 3 := hgl
        have hemptycol : ∀ r < 3, cell grid r col = none := hempty col (by simp)
        have hrowlen9 : ∀ r < 3, col < (grid.getD r []).length := by
          intro r hr; rw [hgrows r hr]; exact hcol9
        refine ⟨icl, igl, igrows, ?_, ?_, ?_⟩
        · -- conservation
          intro r hr
          have step := icons r hr
          rw [getD_decCaps r hfstnd hfstcaps,
            rowFilled_placeCol hcol9 hfstnd (hemptycol r hr) (hgl ▸ hr) (hrowlen9 r hr)] at step
          by_cases hmem : r ∈ pairs.map Prod.fst
          · have hcpos : 0 < caps.getD r 0 := (hrmem r (hfst ▸ hmem)).2
            simp only [hmem, if_true] at step
            omega
          · simp only [hmem, if_false] at step
            omega
        · -- untouched columns
          intro c hc r hr
          have hc1 : c ≠ col := fun he => hc (by simp [he])
          have hc2 : c ∉ rest := fun he => hc (by simp [he])
          rw [iun c hc2 r hr, cell_placeCol_ne_col col hc1]
        · -- per-column conclusions
          intro c hc
          rcases List.mem_cons.mp hc with hceq | hcr
          · subst hceq
            have huntouched : ∀ r < 3, cell grid' r c = cell (placeCol grid c pairs) r c :=
              iun c hnd.1
            have hcells : ∀ r < 3,
                (cell grid' r c = some ·) = (cell (placeCol grid c pairs) r c = some ·) := by
              intro r hr; rw [huntouched r hr]
            refine ⟨?_, ?_, ?_⟩
            · have : colFilled grid' c = colFilled (placeCol grid c pairs) c := by
                unfold colFilled
                apply List.countP_congr
                intro r hr
                rw [huntouched r (List.mem_range.mp hr)]
              rw [this, colFilled_placeCol_self hfstnd hfst3 hemptycol hgridlen3 hrowlen9,
                hfst, hrlen]
            · intro r hr n hcell
              rw [huntouched r hr] at hcell
              have := (cell_placeCol_eq_some hfstnd (hemptycol r hr) (hgl ▸ hr)
                (hrowlen9 r hr)).mp hcell
              exact (List.of_mem_zip this).2
            · intro r r' hrr' hr3 n n' hcell hcell'
              have hr : r < 3 := lt_trans hrr' hr3
              rw [huntouched r hr] at hcell
              rw [huntouched r' hr3] at hcell'
              have hm := (cell_placeCol_eq_some hfstnd (hemptycol r hr) (hgl ▸ hr)
                (hrowlen9 r hr)).mp hcell
              have hm' := (cell_placeCol_eq_some hfstnd (hemptycol r' hr3) (hgl ▸ hr3)
                (hrowlen9 r' hr3)).mp hcell'
              exact zip_strictMono hrlt hnumcol.2 hm hm' hrr'
          · exact icols c hcr

/-!
## Count distribution and column sampling of `main.py`
-/

theorem mainDistLoop_spec :
    ∀ (n : Nat) (g : Rng) (counts : List Nat),
      counts.length = 9 → (∀ i < 9, 1 ≤ counts.getD i 0 ∧ counts.getD i 0 ≤ 3) →
      (mainDistLoop n g counts).1.length = 9 ∧
      (∀ i < 9, 1 ≤ (mainDistLoop n g counts).1.getD i 0 ∧
        (mainDistLoop n g counts).1.getD i 0 ≤ 3) := by
  intro n
  induction n with
  | zero => intro g counts hlen hbnd; exact ⟨hlen, hbnd⟩
  | succ n ih =>
    intro g counts hlen hbnd
    simp only [mainDistLoop]
    by_cases hemp : ((List.range 9).filter fun i => counts.getD i 0 < 3).isEmpty
    · rw [if_pos hemp]; exact ⟨hlen, hbnd⟩
    · rw [if_neg hemp]
      have hne : ((List.range 9).filter fun i => counts.getD i 0 < 3) ≠ [] := by
        simpa [List.isEmpty_iff] using hemp
      have hcm := Rng.choice_mem g _ hne
      have hc := List.mem_filter.mp hcm
      have hc9 : (g.choice ((List.range 9).filter fun i => counts.getD i 0 < 3)).1 < 9 :=
        List.mem_range.mp hc.1
      apply ih
      · rw [List.length_set]; exact hlen
      · intro i hi
        by_cases hieq : i = (g.choice ((List.range 9).filter fun i => counts.getD i 0 < 3)).1
        · subst hieq
          rw [getD_set_self (by rw [hlen]; exact hc9)]
          have h2 : counts.getD
              (g.choice ((List.range 9).filter fun i => counts.getD i 0 < 3)).1 0 < 3 := by
            simpa using hc.2
          have h1 := (hbnd _ hc9).1
          omega
        · rw [getD_set_ne (fun he => hieq he.symm)]
          exact hbnd i hi

theorem colRange_nodup : ∀ c : Nat, (colRange c).Nodup := by
  intro c
  match c with
  | 0 | 1 | 2 | 3 | 4 | 5 | 6 | 7 | 8 => decide
  | n + 9 =>
    show (List.getD _ (n + 9) []).Nodup
    rw [List.getD_eq_default]
    · exact List.nodup_nil
    · simp [_default_col_ranges]

theorem sampleColumns_spec (counts : List Nat) :
    ∀ (l : List Nat) (g : Rng) (acc res : List (List Nat)) (g' : Rng),
      sampleColumns counts l g acc = (some res, g') →
      res.length = acc.length + l.length ∧
      (∀ i < acc.length, res.getD i [] = acc.getD i []) ∧
      (∀ j, j < l.length →
        (res.getD (acc.length + j) []).length = counts.getD (l.getD j 0) 0 ∧
        List.Pairwise (· < ·) (res.getD (acc.length + j) []) ∧
        (∀ x ∈ res.getD (acc.length + j) [], x ∈ colRange (l.getD j 0))) := by
  intro l
  induction l with
  | nil =>
    intro g acc res g' h
    simp only [sampleColumns, Prod.mk.injEq, Option.some.injEq] at h
    obtain ⟨hres, _⟩ := h
    subst hres
    exact ⟨by simp, fun i _ => rfl, fun j hj => absurd hj (by simp)⟩
  | cons c rest ih =>
    intro g acc res g' h
    simp only [sampleColumns] at h
    rcases hsmp : Rng.sample g (colRange c) (counts.getD c 0) with ⟨os, g1⟩
    rw [hsmp] at h
    cases os with
    | none => simp at h
    | some nums =>
      obtain ⟨hnlen, hnsub, hnnd'⟩ := Rng.sample_eq_some hsmp
      have hnnd := hnnd' (colRange_nodup c)
      set sorted := nums.insertionSort (· ≤ ·) with hsorted_def
      have hsperm : List.Perm sorted nums := List.perm_insertionSort _ _
      have hslen : sorted.length = counts.getD c 0 := hsperm.length_eq.trans hnlen
      have hsnd : sorted.Nodup := hsperm.nodup_iff.mpr hnnd
      have hsle : List.Pairwise (· ≤ ·) sorted := List.sorted_insertionSort _ _
      have hslt : List.Pairwise (· < ·) sorted := List.Sorted.lt_of_le hsle hsnd
      have hssub : ∀ x ∈ sorted, x ∈ colRange c := by
        intro x hx; exact hnsub x (hsperm.mem_iff.mp hx)
      obtain ⟨ilen, ipre, ipos⟩ := ih g1 (acc ++ [sorted]) res g' h
      have hacclen : (acc ++ [sorted]).length = acc.length + 1 := by simp
      refine ⟨by rw [ilen, hacclen]; simp [Nat.add_assoc, Nat.add_comm 1], ?_, ?_⟩
      · intro i hi
        rw [ipre i (by rw [hacclen]; omega)]
        rw [List.getD_append _ _ _ _ (by omega)]
      · intro j hj
        match j with
        | 0 =>
          have h0 := ipre acc.length (by rw [hacclen]; omega)
          have hgetacc : (acc ++ [sorted]).getD acc.length [] = sorted := by
            rw [List.getD_eq_getElem?_getD, List.getElem?_append_right (by omega)]
            simp
          rw [Nat.add_zero, h0, hgetacc]
          exact ⟨hslen, hslt, hssub⟩
        | j' + 1 =>
          have := ipos j' (by simp at hj ⊢; omega)
          rw [hacclen] at this
          have heq : acc.length + 1 + j' = acc.length + (j' + 1) := by omega
          rw [heq] at this
          simpa using this


/-!
## Validity of every ticket `main.py` returns
-/

theorem getD_replicate' {α : Type} (n : Nat) (x d : α) (i : Nat) :
    (List.replicate n x).getD i d = if i < n then x else d := by
  rw [List.getD_eq_getElem?_getD, List.getElem?_replicate]
  by_cases h : i < n <;> simp [h]

theorem cell_grid0 (r c : Nat) :
    cell (List.replicate 3 (List.replicate 9 (none : Option Nat))) r c = none := by
  unfold cell
  rw [getD_replicate']
  by_cases hr : r < 3
  · rw [if_pos hr, getD_replicate']
    by_cases hc : c < 9 <;> simp [hc]
  · rw [if_neg hr]
    rfl

theorem rowFilled_grid0 (r : Nat) :
    rowFilled (List.replicate 3 (List.replicate 9 (none : Option Nat))) r = 0 := by
  unfold rowFilled
  rw [List.countP_eq_zero]
  intro c _
  simp only [cell_grid0, Option.isSome_none]
  simp

theorem mainAttempt_valid {g : Rng} {grid : Grid} {g' : Rng}
    (h : mainAttempt g = (some grid, g')) : ValidTicket grid := by
  unfold mainAttempt at h
  rcases hd : mainDistLoop (15 - 9) g (List.replicate 9 1) with ⟨counts, g1⟩
  rw [hd] at h
  simp only at h
  have hdist' := mainDistLoop_spec (15 - 9) g (List.replicate 9 1) (by simp)
    (by intro i hi; rw [getD_replicate', if_pos hi]; omega)
  rw [hd] at hdist'
  simp only at hdist'
  obtain ⟨hclen, hcbnd⟩ := hdist'
  by_cases hsum : counts.sum = 15
  · rw [if_pos hsum] at h
    rcases hsc : sampleColumns counts (List.range 9) g1 [] with ⟨osc, g2⟩
    rw [hsc] at h
    cases osc with
    | none => simp at h
    | some colNums =>
      obtain ⟨sclen, _, scpos⟩ := sampleColumns_spec counts (List.range 9) g1 [] colNums g2 hsc
      have hcolnums : ∀ c < 9, (colNums.getD c []).length = counts.getD c 0 ∧
          List.Pairwise (· < ·) (colNums.getD c []) ∧
          (∀ x ∈ colNums.getD c [], x ∈ colRange c) := by
        intro c hc
        have := scpos c (by simpa using hc)
        have hr9 : (List.range 9).getD c 0 = c := by
          rw [List.getD_eq_getElem?_getD, List.getElem?_range hc]; rfl
        rw [hr9] at this
        simpa using this
      have h2 : (match mainPlaceLoop counts colNums (mainColsOrder counts) g2
            (List.replicate 3 (15 / 3)) (List.replicate 3 (List.replicate 9 none)) with
          | (none, g3) => ((none : Option Grid), g3)
          | (some (caps, grid), g3) =>
            if caps.all (· = 0) then (some grid, g3) else (none, g3)) = (some grid, g') := h
      clear h
      rcases hpl : mainPlaceLoop counts colNums (mainColsOrder counts) g2
          (List.replicate 3 (15 / 3))
          (List.replicate 3 (List.replicate 9 none)) with ⟨opl, g3⟩
      rw [hpl] at h2
      cases opl with
      | none => simp at h2
      | some pr =>
        obtain ⟨caps', grid'⟩ := pr
        have h3 : (if caps'.all (· = 0) then ((some grid' : Option Grid), g3)
            else (none, g3)) = (some grid, g') := h2
        clear h2
        by_cases hall : caps'.all (· = 0)
        · rw [if_pos hall] at h3
          simp only [Prod.mk.injEq, Option.some.injEq] at h3
          obtain ⟨hgeq, _⟩ := h3
          subst hgeq
          have hperm : List.Perm (mainColsOrder counts) (List.range 9) :=
            List.perm_insertionSort _ _
          have hmem9 : ∀ c, c ∈ mainColsOrder counts ↔ c < 9 := by
            intro c; rw [hperm.mem_iff, List.mem_range]
          obtain ⟨icl, igl, igrows, icons, _, icols⟩ :=
            mainPlaceLoop_spec counts colNums (mainColsOrder counts) g2 _ _ caps' grid' g3 hpl
              (hperm.nodup_iff.mpr (List.nodup_range 9))
              (fun c hc => (hmem9 c).mp hc)
              (by simp)
              (by simp)
              (fun r hr => by rw [getD_replicate', if_pos hr]; simp)
              (fun c _ r _ => cell_grid0 r c)
              (fun c hc => ⟨(hcolnums c ((hmem9 c).mp hc)).1, (hcolnums c ((hmem9 c).mp hc)).2.1⟩)
          have hcz : ∀ r < 3, caps'.getD r 0 = 0 := by
            intro r hr
            have hr' : r < caps'.length := by rw [icl]; exact hr
            have := List.all_eq_true.mp hall (caps'.get ⟨r, hr'⟩) (caps'.get_mem _ _)
            rw [List.getD_eq_getElem?_getD, List.getElem?_eq_getElem hr']
            simpa using this
          have hrow5 : ∀ r < 3, rowFilled grid' r = 5 := by
            intro r hr
            have hstep := icons r hr
            rw [hcz r hr, rowFilled_grid0, getD_replicate', if_pos hr] at hstep
            omega
          refine ⟨igl, ?_, ?_, hrow5, ?_, ?_, ?_⟩
          · intro row hrow
            rcases List.mem_iff_getElem.mp hrow with ⟨r, hr, hrg⟩
            have hr3 : r < 3 := by rw [← igl]; exact hr
            have := igrows r hr3
            rw [List.getD_eq_getElem?_getD, List.getElem?_eq_getElem hr] at this
            simpa [hrg] using this
          · show ((List.range 3).map fun r => rowFilled grid' r).sum = 15
            have h3 : List.range 3 = [0, 1, 2] := rfl
            rw [h3]
            simp [hrow5 0 (by omega), hrow5 1 (by omega), hrow5 2 (by omega)]
          · intro c hc
            have hcorder := (hmem9 c).mpr hc
            rw [(icols c hcorder).1]
            exact ⟨(hcbnd c hc).1, (hcbnd c hc).2⟩
          · intro r hr c hc n hcell
            have hcorder := (hmem9 c).mpr hc
            have hval := (icols c hcorder).2.1 r hr n hcell
            exact (hcolnums c hc).2.2 n hval
          · intro c hc r r' hrr' hr3 n n' hn hn'
            have hcorder := (hmem9 c).mpr hc
            exact (icols c hcorder).2.2 r r' hrr' hr3 n n' hn hn'
        · rw [if_neg hall] at h3
          simp at h3
  · rw [if_neg hsum] at h
    simp at h

/-- Every grid returned by `main.py`'s retry loop is a valid ticket. -/
theorem mainAttempts_valid :
    ∀ (n : Nat) (g : Rng) (grid : Grid) (g' : Rng),
      mainAttempts n g = (some grid, g') → ValidTicket grid := by
  intro n
  induction n with
  | zero => intro g grid g' h; simp [mainAttempts] at h
  | succ n ih =>
    intro g grid g' h
    simp only [mainAttempts] at h
    rcases ha : mainAttempt g with ⟨oa, g1⟩
    rw [ha] at h
    cases oa with
    | none => exact ih g1 grid g' h
    | some grid1 =>
      simp only [Prod.mk.injEq, Option.some.injEq] at h
      obtain ⟨hg, _⟩ := h
      subst hg
      exact mainAttempt_valid ha

theorem generate_ticket_9x3_valid {g : Rng} {grid : Grid} {g' : Rng}
    (h : generate_ticket_9x3 g = (some grid, g')) : ValidTicket grid :=
  mainAttempts_valid 1000 g grid g' h

/-!
## Uniqueness of generated ticket batches
-/

theorem mainUniqueInner_spec :
    ∀ (a : Nat) (seen : Finset (Finset Nat)) (g : Rng) (t : Grid) (g1 : Rng),
      mainUniqueInner seen a g = some (t, g1) →
      (ticket_numbers_set t).card = 15 ∧ ticket_numbers_set t ∉ seen := by
  intro a
  induction a with
  | zero => intro seen g t g1 h; simp [mainUniqueInner] at h
  | succ a ih =>
    intro seen g t g1 h
    simp only [mainUniqueInner] at h
    rcases hgen : generate_ticket_9x3 g with ⟨og, g'⟩
    rw [hgen] at h
    cases og with
    | none => simp at h
    | some ticket =>
      have h2 : (if (ticket_numbers_set ticket).card ≠ 15 then mainUniqueInner seen a g'
          else if ticket_numbers_set ticket ∉ seen then some (ticket, g')
          else mainUniqueInner seen a g') = some (t, g1) := h
      clear h
      by_cases hcard : (ticket_numbers_set ticket).card ≠ 15
      · rw [if_pos hcard] at h2
        exact ih seen g' t g1 h2
      · rw [if_neg hcard] at h2
        by_cases hseen : ticket_numbers_set ticket ∉ seen
        · rw [if_pos hseen] at h2
          simp only [Option.some.injEq, Prod.mk.injEq] at h2
          obtain ⟨ht, _⟩ := h2
          subst ht
          exact ⟨by omega, hseen⟩
        · rw [if_neg hseen] at h2
          exact ih seen g' t g1 h2

/-- Distinctness by 15-number set. -/
def TicketsDistinct (ts : List Grid) : Prop :=
  List.Pairwise (fun a b => ticket_numbers_set a ≠ ticket_numbers_set b) ts

theorem mainUniqueOuter_spec :
    ∀ (n : Nat) (g : Rng) (seen : Finset (Finset Nat)) (tickets res : List Grid),
      mainUniqueOuter n g seen tickets = some res →
      (∀ t ∈ tickets, ticket_numbers_set t ∈ seen) →
      TicketsDistinct tickets →
      res.length = tickets.length + n ∧ TicketsDistinct res := by
  intro n
  induction n with
  | zero =>
    intro g seen tickets res h hseen hdist
    simp only [mainUniqueOuter, Option.some.injEq] at h
    subst h
    exact ⟨by omega, hdist⟩
  | succ n ih =>
    intro g seen tickets res h hseen hdist
    simp only [mainUniqueOuter] at h
    rcases hin : mainUniqueInner seen 5000 g with _ | ⟨t, g1⟩
    · rw [hin] at h; cases h
    · rw [hin] at h
      obtain ⟨_, hnot⟩ := mainUniqueInner_spec 5000 seen g t g1 hin
      have hres := ih g1 (insert (ticket_numbers_set t) seen) (tickets ++ [t]) res h
        (by
          intro t' ht'
          rcases List.mem_append.mp ht' with ht' | ht'
          · exact Finset.mem_insert_of_mem (hseen t' ht')
          · simp only [List.mem_singleton] at ht'
            subst ht'
            exact Finset.mem_insert_self _ _)
        (by
          unfold TicketsDistinct
          rw [List.pairwise_append]
          refine ⟨hdist, List.pairwise_singleton _ _, ?_⟩
          intro a ha b hb
          simp only [List.mem_singleton] at hb
          subst hb
          intro he
          exact hnot (he ▸ hseen a ha))
      refine ⟨by rw [hres.1]; simp; omega, hres.2⟩

/-- The statements of claim C4, for both implementations (with the hypothesis
`0 ≤ count` that repairs the claim). -/
theorem gameUniqueLoop_spec (fuel : Nat) (count : Int) :
    ∀ (a : Nat) (g : Rng) (seen : Finset (Finset Nat)) (tickets res : List Grid),
      gameUniqueLoop fuel count a g seen tickets = some res →
      (∀ t ∈ tickets, ticket_numbers_set t ∈ seen) →
      TicketsDistinct tickets →
      (tickets.length : Int) ≤ count →
      (res.length : Int) = count ∧ TicketsDistinct res := by
  intro a
  induction a with
  | zero =>
    intro g seen tickets res h hseen hdist hle
    simp only [gameUniqueLoop] at h
    by_cases hlt : (tickets.length : Int) < count
    · rw [if_pos hlt] at h; cases h
    · rw [if_neg hlt] at h
      simp only [Option.some.injEq] at h
      subst h
      exact ⟨by omega, hdist⟩
  | succ a ih =>
    intro g seen tickets res h hseen hdist hle
    simp only [gameUniqueLoop] at h
    by_cases hlt : (tickets.length : Int) < count
    · rw [if_pos hlt] at h
      rcases hgen : game_generate_ticket_9x3 fuel g with _ | ⟨t, g1⟩
      · rw [hgen] at h; cases h
      · rw [hgen] at h
        have h2 : (if ticket_numbers_set t ∉ seen then
              gameUniqueLoop fuel count a g1 (insert (ticket_numbers_set t) seen) (tickets ++ [t])
            else gameUniqueLoop fuel count a g1 seen tickets) = some res := h
        clear h
        by_cases hseen' : ticket_numbers_set t ∉ seen
        · rw [if_pos hseen'] at h2
          apply ih g1 (insert (ticket_numbers_set t) seen) (tickets ++ [t]) res h2
          · intro t' ht'
            rcases List.mem_append.mp ht' with ht' | ht'
            · exact Finset.mem_insert_of_mem (hseen t' ht')
            · simp only [List.mem_singleton] at ht'
              subst ht'
              exact Finset.mem_insert_self _ _
          · unfold TicketsDistinct
            rw [List.pairwise_append]
            refine ⟨hdist, List.pairwise_singleton _ _, ?_⟩
            intro x hx b hb
            simp only [List.mem_singleton] at hb
            subst hb
            intro he
            exact hseen' (he ▸ hseen x hx)
          · simp only [List.length_append, List.length_singleton]
            omega
        · rw [if_neg hseen'] at h2
          exact ih g1 seen tickets res h2 hseen hdist hle
    · rw [if_neg hlt] at h
      simp only [Option.some.injEq] at h
      subst h
      exact ⟨by omega, hdist⟩

/-!
## `game.py`'s `NumberDrawer` (unshuffled pool) and the drawing claims
-/

/-- `NumberDrawer` from `game.py`: the pool `list(range(1, 91))` is *not*
shuffled (the stored `rnd` is never used); `draw_next` pops the front. -/
structure GameNumberDrawer where
  pool : List Nat
  history : List Nat

/-- `game.py`'s `NumberDrawer.__init__`. -/
def GameNumberDrawer.init : GameNumberDrawer := ⟨List.range' 1 90, []⟩

/-- `game.py`'s `draw_next` (`none` = `StopIteration`). -/
def GameNumberDrawer.draw_next (d : GameNumberDrawer) : Option (Nat × GameNumberDrawer) :=
  match d.pool with
  | [] => none
  | n :: rest => some (n, ⟨rest, d.history ++ [n]⟩)

/-- `game.py`'s `remaining_count`. -/
def GameNumberDrawer.remaining_count (d : GameNumberDrawer) : Nat := d.pool.length

/-- `k` successive calls of `game.py`'s `draw_next`. -/
def GameNumberDrawer.drawMany (d : GameNumberDrawer) : Nat → GameNumberDrawer
  | 0 => d
  | k + 1 =>
    match d.draw_next with
    | none => d
    | some (_, d') => d'.drawMany k

theorem NumberDrawer.drawMany_state :
    ∀ (k : Nat) (d : NumberDrawer),
      (d.drawMany k).pool = d.pool.drop k ∧
      (d.drawMany k).history = d.history ++ d.pool.take k := by
  intro k
  induction k with
  | zero => intro d; simp [drawMany]
  | succ k ih =>
    intro d
    rcases hp : d.pool with _ | ⟨n, rest⟩
    · simp only [drawMany, draw_next, hp]
      simp
    · simp only [drawMany, draw_next, hp]
      obtain ⟨h1, h2⟩ := ih ⟨rest, d.history ++ [n], d.rnd⟩
      refine ⟨by simpa using h1, ?_⟩
      rw [h2]
      simp

theorem GameNumberDrawer.gameDrawMany_state :
    ∀ (k : Nat) (d : GameNumberDrawer),
      (d.drawMany k).pool = d.pool.drop k ∧
      (d.drawMany k).history = d.history ++ d.pool.take k := by
  intro k
  induction k with
  | zero => intro d; simp [drawMany]
  | succ k ih =>
    intro d
    rcases hp : d.pool with _ | ⟨n, rest⟩
    · simp only [drawMany, draw_next, hp]
      simp
    · simp only [drawMany, draw_next, hp]
      obtain ⟨h1, h2⟩ := ih ⟨rest, d.history ++ [n]⟩
      refine ⟨by simpa using h1, ?_⟩
      rw [h2]
      simp

theorem NumberDrawer.init_pool_perm (mt : Nat → Nat → Nat) (env : Nat → Nat)
    (seed : Option Nat) :
    List.Perm (NumberDrawer.init mt env seed).pool (List.range' 1 90) := by
  have hnd : (List.range' 1 90).Nodup := List.nodup_range' 1 90
  have hlen : ((pyRandom mt env seed).sampleAux (List.range' 1 90) 90).1.length = 90 := by
    rw [Rng.sampleAux_length]
    simp
  have hsub : ∀ x ∈ ((pyRandom mt env seed).sampleAux (List.range' 1 90) 90).1,
      x ∈ List.range' 1 90 := fun x hx => Rng.sampleAux_subset _ _ _ _ hx
  have hnd' : ((pyRandom mt env seed).sampleAux (List.range' 1 90) 90).1.Nodup :=
    Rng.sampleAux_nodup _ _ _ hnd
  have hsp := (hnd'.subperm hsub).perm_of_length_le (by rw [hlen]; simp)
  have hpool : (NumberDrawer.init mt env seed).pool =
      ((pyRandom mt env seed).sampleAux (List.range' 1 90) 90).1 := by
    show ((pyRandom mt env seed).shuffle (List.range' 1 90)).1 = _
    unfold Rng.shuffle
    norm_num
  rw [hpool]
  exact hsp

/-- **C7.** Over a drawer's lifetime `draw_next` never repeats a number, each
returned number comes from a (shuffled, for `main.py`) permutation of 1..90,
the 90th draw empties the pool, the 91st call raises instead of returning,
and `draw_next` raises exactly when the pool is empty.  The final block states
the same facts for `game.py`'s drawer, whose pool is the unshuffled 1..90. -/
theorem claim_C7_number_drawer (mt : Nat → Nat → Nat) (env : Nat → Nat) (seed : Option Nat) :
    List.Perm (NumberDrawer.init mt env seed).pool (List.range' 1 90) ∧
    (∀ k, ((NumberDrawer.init mt env seed).drawMany k).history.Nodup ∧
      ∀ n ∈ ((NumberDrawer.init mt env seed).drawMany k).history, n ∈ List.range' 1 90) ∧
    ((NumberDrawer.init mt env seed).drawMany 90).remaining_count = 0 ∧
    ((NumberDrawer.init mt env seed).drawMany 90).draw_next = none ∧
    (∀ d : NumberDrawer, d.draw_next = none ↔ d.remaining_count = 0) ∧
    GameNumberDrawer.init.pool = List.range' 1 90 ∧
    (∀ k, (GameNumberDrawer.init.drawMany k).history.Nodup) ∧
    (GameNumberDrawer.init.drawMany 90).remaining_count = 0 ∧
    (GameNumberDrawer.init.drawMany 90).draw_next = none ∧
    (∀ d : GameNumberDrawer, d.draw_next = none ↔ d.remaining_count = 0) := by
  have hperm := NumberDrawer.init_pool_perm mt env seed
  have hpoollen : (NumberDrawer.init mt env seed).pool.length = 90 := by
    rw [hperm.length_eq]; simp
  have hpoolnd : (NumberDrawer.init mt env seed).pool.Nodup :=
    hperm.nodup_iff.mpr (List.nodup_range' 1 90)
  have hstate := NumberDrawer.drawMany_state
  have hdrop90 : ((NumberDrawer.init mt env seed).drawMany 90).pool = [] := by
    rw [(hstate 90 _).1]
    apply List.eq_nil_of_length_eq_zero
    rw [List.length_drop, hpoollen]
  refine ⟨hperm, ?_, ?_, ?_, ?_, rfl, ?_, ?_, ?_, ?_⟩
  · intro k
    have hh := (hstate k (NumberDrawer.init mt env seed)).2
    have hinit : (NumberDrawer.init mt env seed).history = [] := rfl
    rw [hinit, List.nil_append] at hh
    rw [hh]
    constructor
    · exact (List.take_sublist k _).nodup hpoolnd
    · intro n hn
      exact hperm.mem_iff.mp ((List.take_sublist k _).subset hn)
  · show ((NumberDrawer.init mt env seed).drawMany 90).pool.length = 0
    rw [hdrop90]
    rfl
  · show NumberDrawer.draw_next _ = none
    unfold NumberDrawer.draw_next
    rw [hdrop90]
  · intro d
    unfold NumberDrawer.draw_next NumberDrawer.remaining_count
    rcases d.pool with _ | ⟨n, rest⟩ <;> simp
  · intro k
    have hh := (GameNumberDrawer.gameDrawMany_state k GameNumberDrawer.init).2
    have hinit : GameNumberDrawer.init.history = [] := rfl
    rw [hinit, List.nil_append] at hh
    rw [hh]
    exact (List.take_sublist k _).nodup (List.nodup_range' 1 90)
  · show (GameNumberDrawer.init.drawMany 90).pool.length = 0
    rw [(GameNumberDrawer.gameDrawMany_state 90 _).1]
    simp [GameNumberDrawer.init]
  · show GameNumberDrawer.draw_next _ = none
    unfold GameNumberDrawer.draw_next
    rw [(GameNumberDrawer.gameDrawMany_state 90 _).1]
    have : GameNumberDrawer.init.pool.drop 90 = [] := by
      apply List.eq_nil_of_length_eq_zero
      simp [GameNumberDrawer.init]
    rw [this]
  · intro d
    unfold GameNumberDrawer.draw_next GameNumberDrawer.remaining_count
    rcases d.pool with _ | ⟨n, rest⟩ <;> simp

/-!
## Loop bounds: `main.py`'s fixed loops versus `game.py`'s unbounded while
-/

theorem sum_set_add_one :
    ∀ (l : List Nat) (i : Nat), i < l.length →
      (l.set i (l.getD i 0 + 1)).sum = l.sum + 1 := by
  intro l
  induction l with
  | nil => intro i h; simp at h
  | cons x t ih =>
    intro i h
    match i with
    | 0 => simp [List.getD_cons_zero]; omega
    | j + 1 =>
      have hj : j < t.length := by simpa using h
      simp only [List.set_cons_succ, List.getD_cons_succ, List.sum_cons, ih j hj]
      omega

/-- `main.py`'s count-distribution loop always completes all of its (at most
6) iterations: starting from `[1] * 9`, the counts always reach sum 15 — the
`break` never fires and the subsequent `sum != 15` retry never triggers. -/
theorem mainDistLoop_sum :
    ∀ (n : Nat) (g : Rng) (counts : List Nat),
      counts.length = 9 → (∀ i < 9, counts.getD i 0 ≤ 3) → counts.sum + n ≤ 27 →
      (mainDistLoop n g counts).1.sum = counts.sum + n := by
  intro n
  induction n with
  | zero => intro g counts _ _ _; simp [mainDistLoop]
  | succ n ih =>
    intro g counts hlen hbnd hsum
    simp only [mainDistLoop]
    by_cases hemp : ((List.range 9).filter fun i => counts.getD i 0 < 3).isEmpty
    · exfalso
      have hall3 : ∀ i < 9, counts.getD i 0 = 3 := by
        intro i hi
        by_contra hne
        have hlt : counts.getD i 0 < 3 := lt_of_le_of_ne (hbnd i hi) hne
        have : i ∈ (List.range 9).filter fun i => counts.getD i 0 < 3 :=
          List.mem_filter.mpr ⟨List.mem_range.mpr hi, by simpa using hlt⟩
        rw [List.isEmpty_iff] at hemp
        rw [hemp] at this
        cases this
      have hrepl : counts = List.replicate 9 3 := by
        rw [List.eq_replicate_iff]
        refine ⟨hlen, ?_⟩
        intro x hx
        rcases List.mem_iff_getElem.mp hx with ⟨i, hilen, hig⟩
        have hi9 : i < 9 := by omega
        have := hall3 i hi9
        rw [List.getD_eq_getElem?_getD, List.getElem?_eq_getElem hilen] at this
        simpa [hig] using this
      rw [hrepl] at hsum
      simp [List.sum_replicate] at hsum
    · rw [if_neg hemp]
      have hne : ((List.range 9).filter fun i => counts.getD i 0 < 3) ≠ [] := by
        simpa [List.isEmpty_iff] using hemp
      have hcm := Rng.choice_mem g _ hne
      have hc := List.mem_filter.mp hcm
      have hc9 : (g.choice ((List.range 9).filter fun i => counts.getD i 0 < 3)).1 < 9 :=
        List.mem_range.mp hc.1
      have hclt : counts.getD (g.choice ((List.range 9).filter
          fun i => counts.getD i 0 < 3)).1 0 < 3 := by simpa using hc.2
      rw [ih _ _ (by rw [List.length_set]; exact hlen)
        (by
          intro i hi
          by_cases hieq : i = (g.choice ((List.range 9).filter
              fun i => counts.getD i 0 < 3)).1
          · subst hieq
            rw [getD_set_self (by rw [hlen]; exact hc9)]
            omega
          · rw [getD_set_ne (fun he => hieq he.symm)]
            exact hbnd i hi)
        (by rw [sum_set_add_one counts _ (by rw [hlen]; exact hc9)]; omega)]
      rw [sum_set_add_one counts _ (by rw [hlen]; exact hc9)]
      omega

/-- The constant-zero random source: `choice` always returns the first
alternative. -/
def constZeroStream : Nat → Nat := fun _ => 0

theorem gameDistLoop_stuck :
    ∀ (fuel pos : Nat) (counts : List Nat) (remaining : Nat),
      counts.getD 0 0 = 3 → remaining ≠ 0 →
      gameDistLoop fuel ⟨constZeroStream, pos⟩ counts remaining = none := by
  intro fuel
  induction fuel with
  | zero =>
    intro pos counts remaining _ hrem
    simp [gameDistLoop, hrem]
  | succ fuel ih =>
    intro pos counts remaining h3 hrem
    have hch : (Rng.choice ⟨constZeroStream, pos⟩ (List.range 9)) =
        (0, ⟨constZeroStream, pos + 1⟩) := rfl
    simp only [gameDistLoop, if_neg hrem, hch]
    rw [h3]
    simp only [Nat.lt_irrefl, if_false]
    exact ih (pos + 1) counts remaining h3 hrem

/-- Divergence of `game.py`'s count-distribution loop on a random source:
no iteration budget ever completes it. -/
def gameDistDiverges (s : Nat → Nat) : Prop :=
  ∀ fuel : Nat, gameDistLoop fuel ⟨s, 0⟩ (List.replicate 9 1) (15 - 9) = none

theorem gameDistLoop_constZero_none :
    ∀ fuel : Nat, gameDistLoop fuel ⟨constZeroStream, 0⟩ (List.replicate 9 1) (15 - 9) = none := by
  intro fuel
  match fuel with
  | 0 => rfl
  | 1 => rfl
  | n + 2 =>
    have h := gameDistLoop_stuck n 2 [3, 1, 1, 1, 1, 1, 1, 1, 1] 4 (by rfl) (by omega)
    exact h

/-- Counterexample to C9 as stated: for the random source that always selects
column 0, `game.py`'s count-distribution loop never terminates — no fixed
iteration bound exists. -/
theorem claim_C9_counterexample : gameDistDiverges constZeroStream :=
  fun fuel => gameDistLoop_constZero_none fuel

/-- **C9 (amended).** `main.py`'s loops are bounded — its distribution loop is
a fixed 6-iteration `for` that always completes the count distribution to sum
15 (so the capped 1000-attempt retry loop never retries because of it) — but
`game.py`'s count-distribution `while` loop admits no input-independent bound:
on the random source that always picks column 0 it fails to finish within any
iteration budget. -/
theorem claim_C9_amended_loop_bounds :
    (∀ g : Rng, ((mainDistLoop (15 - 9) g (List.replicate 9 1)).1).sum = 15) ∧
    (∀ fuel : Nat,
      gameDistLoop fuel ⟨constZeroStream, 0⟩ (List.replicate 9 1) (15 - 9) = none) := by
  constructor
  · intro g
    have := mainDistLoop_sum (15 - 9) g (List.replicate 9 1) (by simp)
      (by intro i hi; rw [getD_replicate', if_pos hi]; omega)
      (by simp [List.sum_replicate])
    rw [this]
    simp [List.sum_replicate]
  · exact fun fuel => gameDistLoop_constZero_none fuel

/-!
## `game.py`'s greedy row balance (claim C10)
-/

/-- The `row_counts` effect of processing one 3-count column. -/
def step3 (rc : List Nat) : List Nat := rc.map (· + 1)

/-- The `row_counts` effect of processing one 2-count column. -/
def step2 (rc : List Nat) : List Nat :=
  (twoSmallest rc).foldl (fun rcs r => rcs.set r (rcs.getD r 0 + 1)) rc

/-- The `row_counts` effect of processing one 1-count column. -/
def step1 (rc : List Nat) : List Nat :=
  rc.set (argminRow rc) (rc.getD (argminRow rc) 0 + 1)

theorem foldl_assign3_rowCounts :
    ∀ (l : List Nat) (st : GameAssignSt),
      (l.foldl assign3 st).rowCounts = step3^[l.length] st.rowCounts := by
  intro l
  induction l with
  | nil => intro st; rfl
  | cons x xs ih =>
    intro st
    show (xs.foldl assign3 (assign3 st x)).rowCounts = _
    rw [ih (assign3 st x), List.length_cons, Function.iterate_succ_apply]
    rfl

theorem foldl_assign2_rowCounts :
    ∀ (l : List Nat) (st : GameAssignSt),
      (l.foldl assign2 st).rowCounts = step2^[l.length] st.rowCounts := by
  intro l
  induction l with
  | nil => intro st; rfl
  | cons x xs ih =>
    intro st
    show (xs.foldl assign2 (assign2 st x)).rowCounts = _
    rw [ih (assign2 st x), List.length_cons, Function.iterate_succ_apply]
    rfl

theorem foldl_assign1_rowCounts :
    ∀ (l : List Nat) (st : GameAssignSt),
      (l.foldl assign1 st).rowCounts = step1^[l.length] st.rowCounts := by
  intro l
  induction l with
  | nil => intro st; rfl
  | cons x xs ih =>
    intro st
    show (xs.foldl assign1 (assign1 st x)).rowCounts = _
    rw [ih (assign1 st x), List.length_cons, Function.iterate_succ_apply]
    rfl

theorem gameAssign_rowCounts (counts : List Nat) :
    (gameAssign counts).rowCounts =
      step1^[(colsByCount counts 1).length]
        (step2^[(colsByCount counts 2).length]
          (step3^[(colsByCount counts 3).length] [0, 0, 0])) := by
  unfold gameAssign
  rw [foldl_assign1_rowCounts, foldl_assign2_rowCounts, foldl_assign3_rowCounts]

/-- Partition of an index list by the (1/2/3-valued) counts it maps to. -/
theorem countP_partition (f : Nat → Nat) :
    ∀ l : List Nat, (∀ i ∈ l, 1 ≤ f i ∧ f i ≤ 3) →
      l.countP (fun i => f i = 1) + l.countP (fun i => f i = 2) +
        l.countP (fun i => f i = 3) = l.length ∧
      (l.map f).sum = l.countP (fun i => f i = 1) + 2 * l.countP (fun i => f i = 2) +
        3 * l.countP (fun i => f i = 3) := by
  intro l
  induction l with
  | nil => intro _; simp
  | cons x xs ih =>
    intro hb
    obtain ⟨ih1, ih2⟩ := ih (fun i hi => hb i (by simp [hi]))
    have hx := hb x (by simp)
    simp only [List.countP_cons, List.map_cons, List.sum_cons, List.length_cons]
    have h123 : f x = 1 ∨ f x = 2 ∨ f x = 3 := by omega
    rcases h123 with h | h | h <;> simp [h] <;> omega

theorem map_getD_range :
    ∀ l : List Nat, (List.range l.length).map (fun i => l.getD i 0) = l := by
  intro l
  apply List.ext_getElem
  · simp
  · intro i h1 h2
    simp only [List.getElem_map, List.getElem_range]
    rw [List.getD_eq_getElem?_getD, List.getElem?_eq_getElem h2]
    rfl

/-- Core balance fact: the greedy assignment always levels out at `[5, 5, 5]`. -/
theorem gameAssign_balanced (counts : List Nat)
    (hlen : counts.length = 9) (hbnd : ∀ x ∈ counts, 1 ≤ x ∧ x ≤ 3)
    (hsum : counts.sum = 15) :
    (gameAssign counts).rowCounts = [5, 5, 5] ∧
    (gameAssign counts).rowCounts.all (· = 5) = true := by
  have hbi : ∀ i ∈ List.range 9, 1 ≤ counts.getD i 0 ∧ counts.getD i 0 ≤ 3 := by
    intro i hi
    have hi9 : i < counts.length := by rw [hlen]; exact List.mem_range.mp hi
    rw [List.getD_eq_getElem?_getD, List.getElem?_eq_getElem hi9]
    exact hbnd _ (List.getElem_mem hi9)
  obtain ⟨hpart, hsum'⟩ := countP_partition (fun i => counts.getD i 0) (List.range 9) hbi
  have hmap : (List.range 9).map (fun i => counts.getD i 0) = counts := by
    rw [← hlen]
    rw [hlen]
    have := map_getD_range counts
    rw [hlen] at this
    exact this
  rw [hmap, hsum] at hsum'
  have hlen9 : (List.range 9).length = 9 := by simp
  rw [hlen9] at hpart
  have hm1 : (colsByCount counts 1).length = (List.range 9).countP fun i => counts.getD i 0 = 1 := by
    unfold colsByCount
    rw [List.countP_eq_length_filter]
  have hm2 : (colsByCount counts 2).length = (List.range 9).countP fun i => counts.getD i 0 = 2 := by
    unfold colsByCount
    rw [List.countP_eq_length_filter]
  have hm3 : (colsByCount counts 3).length = (List.range 9).countP fun i => counts.getD i 0 = 3 := by
    unfold colsByCount
    rw [List.countP_eq_length_filter]
  set m1 := (List.range 9).countP fun i => counts.getD i 0 = 1 with hm1d
  set m2 := (List.range 9).countP fun i => counts.getD i 0 = 2 with hm2d
  set m3 := (List.range 9).countP fun i => counts.getD i 0 = 3 with hm3d
  have hrc := gameAssign_rowCounts counts
  rw [hm1, hm2, hm3] at hrc
  have hcases : m3 = 0 ∧ m2 = 6 ∧ m1 = 3 ∨ m3 = 1 ∧ m2 = 4 ∧ m1 = 4 ∨
      m3 = 2 ∧ m2 = 2 ∧ m1 = 5 ∨ m3 = 3 ∧ m2 = 0 ∧ m1 = 6 := by omega
  have hfinal : (gameAssign counts).rowCounts = [5, 5, 5] := by
    rcases hcases with ⟨h3, h2, h1⟩ | ⟨h3, h2, h1⟩ | ⟨h3, h2, h1⟩ | ⟨h3, h2, h1⟩ <;>
      rw [hrc, h3, h2, h1] <;> decide
  exact ⟨hfinal, by rw [hfinal]; decide⟩

/-- **C10.** For every per-column count vector in `{1,2,3}^9` summing to 15,
`game.py`'s greedy least-loaded row assignment (3-count columns to all rows,
then 2-count columns to the two least-filled rows, then 1-count columns to the
least-filled row, ties by lowest row index) ends with every row holding
exactly 5 cells — the `assert all(rc == 5 for rc in row_counts)` never
fires. -/
theorem claim_C10_greedy_row_balance (counts : List Nat)
    (hlen : counts.length = 9) (hbnd : ∀ x ∈ counts, 1 ≤ x ∧ x ≤ 3)
    (hsum : counts.sum = 15) :
    (gameAssign counts).rowCounts = [5, 5, 5] ∧
    (gameAssign counts).rowCounts.all (· = 5) = true :=
  gameAssign_balanced counts hlen hbnd hsum

def c10counts : List Nat := [2, 2, 2, 2, 2, 2, 1, 1, 1]

/-- Witness for C10 at a concrete count vector. -/
theorem claim_C10_witness :
    (gameAssign c10counts).rowCounts = [5, 5, 5] ∧
    (gameAssign c10counts).rowCounts.all (· = 5) = true :=
  claim_C10_greedy_row_balance c10counts (by decide) (by decide) (by decide)

/-!
## Validity of the tickets `game.py` returns
-/

theorem gameDistLoop_spec :
    ∀ (fuel : Nat) (g : Rng) (counts : List Nat) (remaining : Nat)
      (counts' : List Nat) (g' : Rng),
      gameDistLoop fuel g counts remaining = some (counts', g') →
      counts.length = 9 → (∀ i < 9, 1 ≤ counts.getD i 0 ∧ counts.getD i 0 ≤ 3) →
      counts.sum + remaining = 15 →
      counts'.length = 9 ∧ (∀ i < 9, 1 ≤ counts'.getD i 0 ∧ counts'.getD i 0 ≤ 3) ∧
        counts'.sum = 15 := by
  intro fuel
  induction fuel with
  | zero =>
    intro g counts remaining counts' g' h hlen hbnd hsum
    simp only [gameDistLoop] at h
    by_cases hrem : remaining = 0
    · rw [if_pos hrem] at h
      simp only [Option.some.injEq, Prod.mk.injEq] at h
      obtain ⟨hc, _⟩ := h
      subst hc
      exact ⟨hlen, hbnd, by omega⟩
    · rw [if_neg hrem] at h; cases h
  | succ fuel ih =>
    intro g counts remaining counts' g' h hlen hbnd hsum
    simp only [gameDistLoop] at h
    by_cases hrem : remaining = 0
    · rw [if_pos hrem] at h
      simp only [Option.some.injEq, Prod.mk.injEq] at h
      obtain ⟨hc, _⟩ := h
      subst hc
      exact ⟨hlen, hbnd, by omega⟩
    · rw [if_neg hrem] at h
      have hc9 : (g.choice (List.range 9)).1 < 9 := by
        have := Rng.choice_mem g (List.range 9) (by decide)
        exact List.mem_range.mp this
      by_cases hlt : counts.getD (g.choice (List.range 9)).1 0 < 3
      · rw [if_pos hlt] at h
        refine ih _ _ _ _ _ h (by rw [List.length_set]; exact hlen) ?_ ?_
        · intro i hi
          by_cases hieq : i = (g.choice (List.range 9)).1
          · subst hieq
            rw [getD_set_self (by rw [hlen]; exact hc9)]
            have := (hbnd _ hc9).1
            omega
          · rw [getD_set_ne (fun he => hieq he.symm)]
            exact hbnd i hi
        · rw [sum_set_add_one counts _ (by rw [hlen]; exact hc9)]
          omega
      · rw [if_neg hlt] at h
        exact ih _ _ _ _ _ h hlen hbnd hsum

theorem twoSmallest_facts (rc : List Nat) :
    (twoSmallest rc).length = 2 ∧ (twoSmallest rc).Nodup ∧
    ∀ x ∈ twoSmallest rc, x < 3 := by
  unfold twoSmallest
  set srt := (List.range 3).insertionSort fun r s =>
    rc.getD r 0 < rc.getD s 0 ∨ (rc.getD r 0 = rc.getD s 0 ∧ r ≤ s) with hsrt
  have hperm : List.Perm srt (List.range 3) := List.perm_insertionSort _ _
  have hlen : srt.length = 3 := by rw [hperm.length_eq]; simp
  have hnd : srt.Nodup := hperm.nodup_iff.mpr (List.nodup_range 3)
  refine ⟨by rw [List.length_take, hlen]; decide, (List.take_sublist 2 srt).nodup hnd, ?_⟩
  intro x hx
  have : x ∈ srt := (List.take_sublist 2 srt).subset hx
  exact List.mem_range.mp (hperm.mem_iff.mp this)

theorem argminRow_lt3 (rc : List Nat) : argminRow rc < 3 := by
  unfold argminRow
  simp only [List.foldl]
  split_ifs <;> omega

/-- Effect of the sequential `for r in idxs: row_counts[r] += 1`. -/
theorem getD_incrFold :
    ∀ (idxs : List Nat) (rcs : List Nat) (r : Nat), idxs.Nodup →
      (∀ x ∈ idxs, x < rcs.length) →
      (idxs.foldl (fun rcs r => rcs.set r (rcs.getD r 0 + 1)) rcs).getD r 0 =
        rcs.getD r 0 + (if r ∈ idxs then 1 else 0) := by
  intro idxs
  induction idxs with
  | nil => intro rcs r _ _; simp
  | cons hd tl ih =>
    intro rcs r hnd hlt
    rw [List.nodup_cons] at hnd
    have hlt' : ∀ x ∈ tl, x < (rcs.set hd (rcs.getD hd 0 + 1)).length := by
      intro x hx
      rw [List.length_set]
      exact hlt x (by simp [hx])
    show (tl.foldl _ (rcs.set hd (rcs.getD hd 0 + 1))).getD r 0 = _
    rw [ih _ r hnd.2 hlt']
    by_cases hr : r = hd
    · subst hr
      rw [getD_set_self (hlt r (by simp))]
      simp [hnd.1]
    · rw [getD_set_ne (fun he => hr he.symm)]
      by_cases hmem : r ∈ tl <;> simp [hmem, hr]

theorem incrFold_length (idxs rcs : List Nat) :
    (idxs.foldl (fun rcs r => rcs.set r (rcs.getD r 0 + 1)) rcs).length = rcs.length := by
  induction idxs generalizing rcs with
  | nil => rfl
  | cons hd tl ih =>
    show (tl.foldl _ (rcs.set hd (rcs.getD hd 0 + 1))).length = _
    rw [ih, List.length_set]

/-- Number of columns currently assigned to row `r`. -/
def loadOf (st : GameAssignSt) (r : Nat) : Nat :=
  (List.range 9).countP fun c => decide (r ∈ st.rowsFor.getD c [])

/-- Generic invariant of the three assignment folds of `game.py`: each step
writes `val st` into one fresh column of `rows_for_col` and bumps `row_counts`
by the membership indicator of `val st`. -/
theorem foldl_assign_spec (f : GameAssignSt → Nat → GameAssignSt)
    (val : GameAssignSt → List Nat) (Q : List Nat → Prop)
    (hrows : ∀ st c, (f st c).rowsFor = st.rowsFor.set c (val st))
    (hQ : ∀ st, st.rowCounts.length = 3 → Q (val st))
    (hcnt : ∀ st c, st.rowCounts.length = 3 → ∀ r, r < 3 →
      (f st c).rowCounts.getD r 0 = st.rowCounts.getD r 0 + (if r ∈ val st then 1 else 0))
    (hclen : ∀ st c, (f st c).rowCounts.length = st.rowCounts.length) :
    ∀ (l : List Nat) (st : GameAssignSt), l.Nodup → (∀ c ∈ l, c < 9) →
      (∀ c ∈ l, st.rowsFor.getD c [] = []) → st.rowsFor.length = 9 →
      st.rowCounts.length = 3 →
      (l.foldl f st).rowsFor.length = 9 ∧ (l.foldl f st).rowCounts.length = 3 ∧
      (∀ c, c ∉ l → (l.foldl f st).rowsFor.getD c [] = st.rowsFor.getD c []) ∧
      (∀ c ∈ l, Q ((l.foldl f st).rowsFor.getD c [])) ∧
      ((∀ r, r < 3 → st.rowCounts.getD r 0 = loadOf st r) →
        ∀ r, r < 3 → (l.foldl f st).rowCounts.getD r 0 = loadOf (l.foldl f st) r) := by
  intro l
  induction l with
  | nil =>
    intro st _ _ _ hrl hcl
    exact ⟨hrl, hcl, fun c _ => rfl, fun c hc => absurd hc (by simp), fun hload => hload⟩
  | cons x xs ih =>
    intro st hnd hlt9 hem hrl hcl
    rw [List.nodup_cons] at hnd
    have hx9 : x < 9 := hlt9 x (by simp)
    have hemx : st.rowsFor.getD x [] = [] := hem x (by simp)
    have hstep_rows : (f st x).rowsFor = st.rowsFor.set x (val st) := hrows st x
    have hrl' : (f st x).rowsFor.length = 9 := by rw [hstep_rows, List.length_set]; exact hrl
    have hcl' : (f st x).rowCounts.length = 3 := by rw [hclen]; exact hcl
    have hem' : ∀ c ∈ xs, (f st x).rowsFor.getD c [] = [] := by
      intro c hc
      rw [hstep_rows, getD_set_ne (fun he => hnd.1 (by rw [he]; exact hc))]
      exact hem c (by simp [hc])
    have ihx := ih (f st x) hnd.2 (fun c hc => hlt9 c (by simp [hc])) hem' hrl' hcl'
    obtain ⟨irl, icl, iun, iQ, iload⟩ := ihx
    have hgetx : (f st x).rowsFor.getD x [] = val st := by
      rw [hstep_rows, getD_set_self (by rw [hrl]; exact hx9)]
    refine ⟨irl, icl, ?_, ?_, ?_⟩
    · intro c hc
      have hc1 : c ≠ x := fun he => hc (by simp [he])
      have hc2 : c ∉ xs := fun he => hc (by simp [he])
      show (xs.foldl f (f st x)).rowsFor.getD c [] = _
      rw [iun c hc2, hstep_rows, getD_set_ne (fun he => hc1 he.symm)]
    · intro c hc
      rcases List.mem_cons.mp hc with hceq | hcxs
      · rw [hceq]
        show Q ((xs.foldl f (f st x)).rowsFor.getD x [])
        rw [iun x hnd.1, hgetx]
        exact hQ st hcl
      · exact iQ c hcxs
    · intro hload r hr
      apply iload _ r hr
      intro r' hr'
      rw [hcnt st x hcl r' hr']
      have hkey := countP_single_change (List.nodup_range 9) (List.mem_range.mpr hx9)
        (fun c => decide (r' ∈ st.rowsFor.getD c []))
        (fun c => decide (r' ∈ (f st x).rowsFor.getD c []))
        (fun j _ hj => by
          show decide (r' ∈ st.rowsFor.getD j []) = decide (r' ∈ (f st x).rowsFor.getD j [])
          rw [hstep_rows, getD_set_ne (fun he => hj he.symm)])
      simp only at hkey
      simp only [hgetx, hemx, decide_eq_true_eq] at hkey
      rw [if_neg (List.not_mem_nil r')] at hkey
      rw [hload r' hr']
      show loadOf st r' + (if r' ∈ val st then 1 else 0) = loadOf (f st x) r'
      unfold loadOf
      by_cases hmem : r' ∈ val st
      · rw [if_pos hmem] at hkey ⊢
        omega
      · rw [if_neg hmem] at hkey ⊢
        omega

theorem getD_map_add_one (l : List Nat) (i : Nat) (h : i < l.length) :
    (l.map (· + 1)).getD i 0 = l.getD i 0 + 1 := by
  rw [List.getD_eq_getElem?_getD, List.getD_eq_getElem?_getD, List.getElem?_map,
    List.getElem?_eq_getElem h]
  rfl

theorem mem_colsByCount {counts : List Nat} {k c : Nat} :
    c ∈ colsByCount counts k ↔ c < 9 ∧ counts.getD c 0 = k := by
  unfold colsByCount
  rw [List.mem_filter, List.mem_range]
  simp

theorem gameAssign_spec (counts : List Nat) (hlen : counts.length = 9)
    (hbnd : ∀ i < 9, 1 ≤ counts.getD i 0 ∧ counts.getD i 0 ≤ 3) :
    (gameAssign counts).rowsFor.length = 9 ∧
    (gameAssign counts).rowCounts.length = 3 ∧
    (∀ c < 9, ((gameAssign counts).rowsFor.getD c []).length = counts.getD c 0 ∧
      ((gameAssign counts).rowsFor.getD c []).Nodup ∧
      (∀ x ∈ (gameAssign counts).rowsFor.getD c [], x < 3)) ∧
    (∀ r, r < 3 → (gameAssign counts).rowCounts.getD r 0 = loadOf (gameAssign counts) r) := by
  have spec3 := foldl_assign_spec assign3 (fun _ => [0, 1, 2]) (fun v => v = [0, 1, 2])
    (fun st c => rfl) (fun st _ => rfl)
    (by
      intro st c hcl r hr
      show (st.rowCounts.map (· + 1)).getD r 0 = _
      rw [getD_map_add_one _ _ (by rw [hcl]; exact hr)]
      have : r ∈ [0, 1, 2] := by
        match r, hr with
        | 0, _ => simp
        | 1, _ => simp
        | 2, _ => simp
      rw [if_pos this])
    (fun st c => by show (st.rowCounts.map _).length = _; simp)
  have spec2 := foldl_assign_spec assign2 (fun st => twoSmallest st.rowCounts)
    (fun v => v.length = 2 ∧ v.Nodup ∧ ∀ x ∈ v, x < 3)
    (fun st c => rfl) (fun st _ => twoSmallest_facts st.rowCounts)
    (by
      intro st c hcl r hr
      show ((twoSmallest st.rowCounts).foldl _ st.rowCounts).getD r 0 = _
      rw [getD_incrFold _ _ _ (twoSmallest_facts st.rowCounts).2.1
        (fun x hx => by rw [hcl]; exact (twoSmallest_facts st.rowCounts).2.2 x hx)])
    (fun st c => incrFold_length (twoSmallest st.rowCounts) st.rowCounts)
  have spec1 := foldl_assign_spec assign1 (fun st => [argminRow st.rowCounts])
    (fun v => ∃ a, a < 3 ∧ v = [a])
    (fun st c => rfl) (fun st _ => ⟨argminRow st.rowCounts, argminRow_lt3 _, rfl⟩)
    (by
      intro st c hcl r hr
      show (st.rowCounts.set (argminRow st.rowCounts) _).getD r 0 = _
      by_cases hreq : r = argminRow st.rowCounts
      · rw [← hreq, getD_set_self (by rw [hcl]; exact hr)]
        rw [if_pos (by simp [hreq])]
      · rw [getD_set_ne (fun he => hreq he.symm),
          if_neg (by simp [hreq])]
        omega)
    (fun st c => by show (st.rowCounts.set _ _).length = _; simp)
  set st0 : GameAssignSt := ⟨List.replicate 9 [], [0, 0, 0]⟩ with hst0
  have hl3 : ∀ c ∈ colsByCount counts 3, c < 9 := fun c hc => (mem_colsByCount.mp hc).1
  have hl2 : ∀ c ∈ colsByCount counts 2, c < 9 := fun c hc => (mem_colsByCount.mp hc).1
  have hl1 : ∀ c ∈ colsByCount counts 1, c < 9 := fun c hc => (mem_colsByCount.mp hc).1
  have hnd3 : (colsByCount counts 3).Nodup := List.Nodup.filter _ (List.nodup_range 9)
  have hnd2 : (colsByCount counts 2).Nodup := List.Nodup.filter _ (List.nodup_range 9)
  have hnd1 : (colsByCount counts 1).Nodup := List.Nodup.filter _ (List.nodup_range 9)
  have hem0 : ∀ c, st0.rowsFor.getD c [] = [] := by
    intro c
    show (List.replicate 9 []).getD c [] = []
    rw [getD_replicate']
    by_cases h : c < 9 <;> simp [h]
  obtain ⟨rl3, cl3, un3, q3, ld3⟩ := spec3 (colsByCount counts 3) st0 hnd3 hl3
    (fun c _ => hem0 c) (by simp [hst0]) (by simp [hst0])
  set st3 := (colsByCount counts 3).foldl assign3 st0 with hst3
  have hem3 : ∀ c, counts.getD c 0 ≠ 3 → st3.rowsFor.getD c [] = st0.rowsFor.getD c [] := by
    intro c hc
    exact un3 c (fun hmem => hc (mem_colsByCount.mp hmem).2)
  obtain ⟨rl2, cl2, un2, q2, ld2⟩ := spec2 (colsByCount counts 2) st3 hnd2 hl2
    (fun c hc => by
      rw [hem3 c (by rw [(mem_colsByCount.mp hc).2]; omega)]
      exact hem0 c)
    rl3 cl3
  set st2 := (colsByCount counts 2).foldl assign2 st3 with hst2
  have hem2 : ∀ c, counts.getD c 0 ≠ 2 → st2.rowsFor.getD c [] = st3.rowsFor.getD c [] := by
    intro c hc
    exact un2 c (fun hmem => hc (mem_colsByCount.mp hmem).2)
  obtain ⟨rl1, cl1, un1, q1, ld1⟩ := spec1 (colsByCount counts 1) st2 hnd1 hl1
    (fun c hc => by
      have hc1 : counts.getD c 0 = 1 := (mem_colsByCount.mp hc).2
      rw [hem2 c (by omega), hem3 c (by omega)]
      exact hem0 c)
    rl2 cl2
  have hfin : gameAssign counts = (colsByCount counts 1).foldl assign1 st2 := rfl
  have hun1 : ∀ c, counts.getD c 0 ≠ 1 →
      (gameAssign counts).rowsFor.getD c [] = st2.rowsFor.getD c [] := by
    intro c hc
    rw [hfin]
    exact un1 c (fun hmem => hc (mem_colsByCount.mp hmem).2)
  refine ⟨by rw [hfin]; exact rl1, by rw [hfin]; exact cl1, ?_, ?_⟩
  · intro c hc
    have hb := hbnd c hc
    have h123 : counts.getD c 0 = 1 ∨ counts.getD c 0 = 2 ∨ counts.getD c 0 = 3 := by omega
    rcases h123 with h | h | h
    · have hmem : c ∈ colsByCount counts 1 := mem_colsByCount.mpr ⟨hc, h⟩
      have hthis := q1 c hmem
      rw [← hfin] at hthis
      obtain ⟨a, ha3, hv⟩ := hthis
      rw [hv, h]
      exact ⟨rfl, List.nodup_singleton a, by simpa using ha3⟩
    · have hmem : c ∈ colsByCount counts 2 := mem_colsByCount.mpr ⟨hc, h⟩
      have hthis := q2 c hmem
      rw [hun1 c (by omega)]
      rw [h]
      exact hthis
    · have hmem : c ∈ colsByCount counts 3 := mem_colsByCount.mpr ⟨hc, h⟩
      have hthis := q3 c hmem
      rw [hun1 c (by omega), hem2 c (by omega), hthis, h]
      refine ⟨rfl, by decide, by decide⟩
  · intro r hr
    rw [hfin]
    apply ld1 _ r hr
    apply ld2
    apply ld3
    intro r' hr'
    show ([0, 0, 0].getD r' 0) = loadOf st0 r'
    have hz : ([0, 0, 0] : List Nat).getD r' 0 = 0 := by
      match r', hr' with
      | 0, _ => rfl
      | 1, _ => rfl
      | 2, _ => rfl
    rw [hz]
    unfold loadOf
    rw [eq_comm, List.countP_eq_zero]
    intro c _
    rw [hem0 c]
    simp

/-- The grid-building fold of `game.py`, over an explicit column list. -/
def buildGridFold (rowsFor colNums : List (List Nat)) (l : List Nat) (gr : Grid) : Grid :=
  l.foldl (fun gr c => placeCol gr c
    (((rowsFor.getD c []).insertionSort (· ≤ ·)).zip (colNums.getD c []))) gr

theorem buildGrid_eq (rowsFor colNums : List (List Nat)) :
    buildGrid rowsFor colNums =
      buildGridFold rowsFor colNums (List.range 9)
        (List.replicate 3 (List.replicate 9 none)) := rfl

theorem buildGridFold_spec (rowsFor colNums : List (List Nat)) :
    ∀ (l : List Nat) (gr : Grid),
      l.Nodup → (∀ c ∈ l, c < 9) →
      gr.length = 3 → (∀ r < 3, (gr.getD r []).length = 9) →
      (∀ c ∈ l, ∀ r < 3, cell gr r c = none) →
      (∀ c ∈ l, (rowsFor.getD c []).length = (colNums.getD c []).length ∧
        (rowsFor.getD c []).Nodup ∧ (∀ x ∈ rowsFor.getD c [], x < 3) ∧
        List.Pairwise (· < ·) (colNums.getD c [])) →
      (buildGridFold rowsFor colNums l gr).length = 3 ∧
      (∀ r < 3, ((buildGridFold rowsFor colNums l gr).getD r []).length = 9) ∧
      (∀ c, c ∉ l → ∀ r < 3, cell (buildGridFold rowsFor colNums l gr) r c = cell gr r c) ∧
      (∀ r < 3, rowFilled (buildGridFold rowsFor colNums l gr) r = rowFilled gr r +
        l.countP (fun c => decide (r ∈ rowsFor.getD c []))) ∧
      (∀ c ∈ l, colFilled (buildGridFold rowsFor colNums l gr) c = (rowsFor.getD c []).length ∧
        (∀ r < 3, ∀ n : Nat, cell (buildGridFold rowsFor colNums l gr) r c = some n →
          n ∈ colNums.getD c []) ∧
        (∀ r r' : Nat, r < r' → r' < 3 → ∀ n n' : Nat,
          cell (buildGridFold rowsFor colNums l gr) r c = some n →
          cell (buildGridFold rowsFor colNums l gr) r' c = some n' → n < n')) := by
  intro l
  induction l with
  | nil =>
    intro gr _ _ hgl hgrows _ _
    exact ⟨hgl, hgrows, fun c _ r _ => rfl, fun r _ => by simp [buildGridFold],
      fun c hc => absurd hc (by simp)⟩
  | cons col cs ih =>
    intro gr hnd hlt9 hgl hgrows hempty hprops
    rw [List.nodup_cons] at hnd
    have hcol9 : col < 9 := hlt9 col (by simp)
    obtain ⟨hplen, hpnd, hplt3, hpsorted⟩ := hprops col (by simp)
    set rows := (rowsFor.getD col []).insertionSort (· ≤ ·) with hrows_def
    have hrperm : List.Perm rows (rowsFor.getD col []) := List.perm_insertionSort _ _
    have hrnd : rows.Nodup := hrperm.nodup_iff.mpr hpnd
    have hrlen : rows.length = (colNums.getD col []).length := hrperm.length_eq.trans hplen
    have hrle : List.Pairwise (· ≤ ·) rows := List.sorted_insertionSort _ _
    have hrlt : List.Pairwise (· < ·) rows := List.Sorted.lt_of_le hrle hrnd
    have hrmem : ∀ r ∈ rows, r < 3 := fun r hr => hplt3 r (hrperm.mem_iff.mp hr)
    set nums := colNums.getD col [] with hnums_def
    set pairs := rows.zip nums with hpairs_def
    have hfst : pairs.map Prod.fst = rows := List.map_fst_zip rows nums (by omega)
    have hfstnd : (pairs.map Prod.fst).Nodup := hfst ▸ hrnd
    have hfst3 : ∀ x ∈ pairs.map Prod.fst, x < 3 := fun x hx => hrmem x (hfst ▸ hx)
    set gr1 := placeCol gr col pairs with hgr1
    have hg1l : gr1.length = 3 := by rw [hgr1, placeCol_length, hgl]
    have hg1rows : ∀ r < 3, (gr1.getD r []).length = 9 := by
      intro r hr; rw [hgr1, placeCol_row_length]; exact hgrows r hr
    have hemptycol : ∀ r < 3, cell gr r col = none := hempty col (by simp)
    have hrowlen9 : ∀ r < 3, col < (gr.getD r []).length := by
      intro r hr; rw [hgrows r hr]; exact hcol9
    have hempty1 : ∀ c ∈ cs, ∀ r < 3, cell gr1 r c = none := by
      intro c hc r hr
      rw [hgr1, cell_placeCol_ne_col col (fun he => hnd.1 (by rw [← he]; exact hc))]
      exact hempty c (by simp [hc]) r hr
    have hstep : buildGridFold rowsFor colNums (col :: cs) gr =
        buildGridFold rowsFor colNums cs gr1 := rfl
    obtain ⟨igl, igrows, iun, irow, icols⟩ := ih gr1 hnd.2
      (fun c hc => hlt9 c (by simp [hc])) hg1l hg1rows hempty1
      (fun c hc => hprops c (by simp [hc]))
    rw [hstep]
    refine ⟨igl, igrows, ?_, ?_, ?_⟩
    · intro c hc r hr
      have hc1 : c ≠ col := fun he => hc (by simp [he])
      have hc2 : c ∉ cs := fun he => hc (by simp [he])
      rw [iun c hc2 r hr, hgr1, cell_placeCol_ne_col col hc1]
    · intro r hr
      rw [irow r hr, hgr1,
        rowFilled_placeCol hcol9 hfstnd (hemptycol r hr) (hgl ▸ hr) (hrowlen9 r hr)]
      rw [List.countP_cons]
      have hiff : r ∈ pairs.map Prod.fst ↔ r ∈ rowsFor.getD col [] := by
        rw [hfst]; exact hrperm.mem_iff
      simp only [decide_eq_true_eq]
      by_cases hmem : r ∈ rowsFor.getD col []
      · rw [if_pos (hiff.mpr hmem), if_pos hmem]
        omega
      · rw [if_neg (fun hx => hmem (hiff.mp hx)), if_neg hmem]
        omega
    · intro c hc
      rcases List.mem_cons.mp hc with hceq | hccs
      · subst hceq
        have huntouched : ∀ r < 3, cell (buildGridFold rowsFor colNums cs gr1) r c =
            cell gr1 r c := iun c hnd.1
        refine ⟨?_, ?_, ?_⟩
        · have hcf : colFilled (buildGridFold rowsFor colNums cs gr1) c = colFilled gr1 c := by
            unfold colFilled
            apply List.countP_congr
            intro r hr
            rw [huntouched r (List.mem_range.mp hr)]
          rw [hcf, hgr1, colFilled_placeCol_self hfstnd hfst3 hemptycol hgl hrowlen9,
            hfst, hrperm.length_eq]
        · intro r hr n hcell
          rw [huntouched r hr, hgr1] at hcell
          have := (cell_placeCol_eq_some hfstnd (hemptycol r hr) (hgl ▸ hr)
            (hrowlen9 r hr)).mp hcell
          exact (List.of_mem_zip this).2
        · intro r r' hrr' hr3 n n' hcell hcell'
          have hr : r < 3 := lt_trans hrr' hr3
          rw [huntouched r hr, hgr1] at hcell
          rw [huntouched r' hr3, hgr1] at hcell'
          have hm := (cell_placeCol_eq_some hfstnd (hemptycol r hr) (hgl ▸ hr)
            (hrowlen9 r hr)).mp hcell
          have hm' := (cell_placeCol_eq_some hfstnd (hemptycol r' hr3) (hgl ▸ hr3)
            (hrowlen9 r' hr3)).mp hcell'
          exact zip_strictMono hrlt hpsorted hm hm' hrr'
      · exact icols c hccs

theorem game_generate_ticket_9x3_valid {fuel : Nat} {g : Rng} {grid : Grid} {g2 : Rng}
    (h : game_generate_ticket_9x3 fuel g = some (grid, g2)) : ValidTicket grid := by
  unfold game_generate_ticket_9x3 at h
  rcases hd : gameDistLoop fuel g (List.replicate 9 1) (15 - 9) with _ | ⟨counts, g1⟩
  · rw [hd] at h; cases h
  · rw [hd] at h
    obtain ⟨hclen, hcbnd, hcsum⟩ := gameDistLoop_spec fuel g _ _ counts g1 hd (by simp)
      (by intro i hi; rw [getD_replicate', if_pos hi]; omega)
      (by simp [List.sum_replicate])
    have h1 : (match sampleColumns counts (List.range 9) g1 [] with
        | (none, _) => none
        | (some colNums, g2') =>
          if (gameAssign counts).rowCounts.all (· = 5) then
            some (buildGrid (gameAssign counts).rowsFor colNums, g2')
          else none) = some (grid, g2) := h
    clear h
    rcases hsc : sampleColumns counts (List.range 9) g1 [] with ⟨osc, g2'⟩
    rw [hsc] at h1
    cases osc with
    | none => simp at h1
    | some colNums =>
      obtain ⟨sclen, _, scpos⟩ := sampleColumns_spec counts (List.range 9) g1 [] colNums g2' hsc
      have hcolnums : ∀ c < 9, (colNums.getD c []).length = counts.getD c 0 ∧
          List.Pairwise (· < ·) (colNums.getD c []) ∧
          (∀ x ∈ colNums.getD c [], x ∈ colRange c) := by
        intro c hc
        have := scpos c (by simpa using hc)
        have hr9 : (List.range 9).getD c 0 = c := by
          rw [List.getD_eq_getElem?_getD, List.getElem?_range hc]; rfl
        rw [hr9] at this
        simpa using this
      have h3 : (if (gameAssign counts).rowCounts.all (· = 5) then
          some (buildGrid (gameAssign counts).rowsFor colNums, g2')
          else none) = some (grid, g2) := h1
      clear h1
      by_cases hall : (gameAssign counts).rowCounts.all (· = 5)
      · rw [if_pos hall] at h3
        simp only [Option.some.injEq, Prod.mk.injEq] at h3
        obtain ⟨hgeq, _⟩ := h3
        subst hgeq
        obtain ⟨hrfl9, hrcl3, hrfprops, hload⟩ := gameAssign_spec counts hclen hcbnd
        have hrc5 : ∀ r < 3, (gameAssign counts).rowCounts.getD r 0 = 5 := by
          intro r hr
          have hr' : r < (gameAssign counts).rowCounts.length := by rw [hrcl3]; exact hr
          have := List.all_eq_true.mp hall ((gameAssign counts).rowCounts.get ⟨r, hr'⟩)
            ((gameAssign counts).rowCounts.get_mem _ _)
          rw [List.getD_eq_getElem?_getD, List.getElem?_eq_getElem hr']
          simpa using this
        obtain ⟨bgl, bgrows, _, brow, bcols⟩ := buildGridFold_spec (gameAssign counts).rowsFor
          colNums (List.range 9) (List.replicate 3 (List.replicate 9 none))
          (List.nodup_range 9) (fun c hc => List.mem_range.mp hc)
          (by simp)
          (fun r hr => by rw [getD_replicate', if_pos hr]; simp)
          (fun c _ r _ => cell_grid0 r c)
          (fun c hc => by
            have hc9 := List.mem_range.mp hc
            refine ⟨?_, (hrfprops c hc9).2.1, (hrfprops c hc9).2.2, (hcolnums c hc9).2.1⟩
            rw [(hrfprops c hc9).1, (hcolnums c hc9).1])
        rw [← buildGrid_eq] at bgl bgrows brow bcols
        have hrow5 : ∀ r < 3, rowFilled (buildGrid (gameAssign counts).rowsFor colNums) r = 5 := by
          intro r hr
          rw [brow r hr, rowFilled_grid0]
          have : (List.range 9).countP
              (fun c => decide (r ∈ (gameAssign counts).rowsFor.getD c [])) =
              loadOf (gameAssign counts) r := rfl
          rw [this, ← hload r hr, hrc5 r hr]
        refine ⟨bgl, ?_, ?_, hrow5, ?_, ?_, ?_⟩
        · intro row hrow
          rcases List.mem_iff_getElem.mp hrow with ⟨r, hr, hrg⟩
          have hr3 : r < 3 := by rw [← bgl]; exact hr
          have := bgrows r hr3
          rw [List.getD_eq_getElem?_getD, List.getElem?_eq_getElem hr] at this
          simpa [hrg] using this
        · show ((List.range 3).map fun r =>
              rowFilled (buildGrid (gameAssign counts).rowsFor colNums) r).sum = 15
          have h3' : List.range 3 = [0, 1, 2] := rfl
          rw [h3']
          simp [hrow5 0 (by omega), hrow5 1 (by omega), hrow5 2 (by omega)]
        · intro c hc
          have := (bcols c (List.mem_range.mpr hc)).1
          rw [this, (hrfprops c hc).1]
          exact ⟨(hcbnd c hc).1, (hcbnd c hc).2⟩
        · intro r hr c hc n hcell
          have hval := (bcols c (List.mem_range.mpr hc)).2.1 r hr n hcell
          exact (hcolnums c hc).2.2 n hval
        · intro c hc r r' hrr' hr3 n n' hn hn'
          exact (bcols c (List.mem_range.mpr hc)).2.2 r r' hrr' hr3 n n' hn hn'
      · rw [if_neg hall] at h3
        cases h3

/-!
## Claims C1 and C6
-/

/-- **C1.** For every random source, a ticket returned by `generate_ticket_9x3`
— `main.py`'s, or `game.py`'s for any distribution-loop fuel — is a 3-row ×
9-column grid with exactly 15 filled cells, exactly 5 per row, 1–3 per column,
every filled value inside that column's fixed range, and the filled values of
each column strictly increasing from top to bottom. -/
theorem claim_C1_generate_ticket_valid (g : Rng) (fuel : Nat) :
    (∀ grid : Grid, (generate_ticket_9x3 g).1 = some grid → ValidTicket grid) ∧
    (∀ grid : Grid, (game_generate_ticket_9x3 fuel g).map Prod.fst = some grid →
      ValidTicket grid) := by
  constructor
  · intro grid h
    rcases he : generate_ticket_9x3 g with ⟨o, g'⟩
    rw [he] at h
    cases o with
    | none => cases h
    | some grid' =>
      simp only [Option.some.injEq] at h
      subst h
      exact generate_ticket_9x3_valid he
  · intro grid h
    rcases he : game_generate_ticket_9x3 fuel g with _ | ⟨grid', g2⟩
    · rw [he] at h; cases h
    · rw [he] at h
      simp only [Option.map_some', Option.some.injEq] at h
      subst h
      exact game_generate_ticket_9x3_valid he

def idStream : Nat → Nat := fun n => n

def c1Rng : Rng := ⟨idStream, 0⟩

def c1MainGrid : Grid :=
  [[some 7, some 10, some 20, some 32, some 44, none, none, none, none],
   [some 9, none, some 23, some 35, none, some 56, none, some 79, none],
   [none, some 18, none, none, some 47, some 59, some 68, none, some 89]]

def c1GameGrid : Grid :=
  [[some 7, some 10, none, some 32, some 44, none, some 68, none, none],
   [some 9, none, some 20, some 35, none, some 56, none, some 79, none],
   [none, some 18, some 23, none, some 47, some 59, none, none, some 89]]

/-- Witness for C1: the tickets both generators produce on the identity
stream are valid. -/
theorem claim_C1_witness : ValidTicket c1MainGrid ∧ ValidTicket c1GameGrid :=
  ⟨(claim_C1_generate_ticket_valid c1Rng 10).1 c1MainGrid (by decide),
   (claim_C1_generate_ticket_valid c1Rng 10).2 c1GameGrid (by decide)⟩

/-- Counterexample to C6 as stated: the generated ticket `c1MainGrid`
(produced by `generate_ticket_9x3` on the identity stream) holds the value 10
in column 1, but the claim's range for column 1 is `[11, 20)`. -/
theorem claim_C6_counterexample :
    (generate_ticket_9x3 c1Rng).1 = some c1MainGrid ∧
    cell c1MainGrid 0 1 = some 10 ∧ ¬ claimColRange 1 10 :=
  ⟨by decide, by decide, by decide⟩

theorem colRange_sub_code : ∀ c, c < 9 → ∀ n ∈ colRange c, codeColRange c n := by
  intro c hc n hn
  interval_cases c <;>
    simp only [colRange, _default_col_ranges, List.getD_cons_zero, List.getD_cons_succ,
      List.mem_range'_1] at hn <;>
    simp only [codeColRange] <;> norm_num <;> omega

/-- **C6 (amended).** Every filled cell of a generated ticket, in column `c`,
holds a value in `[10c, 10(c+1))` — except that column 0's range starts at 1
and column 8's extends to 90 inclusive.  (The ranges start at `10c`, not at
`10c + 1` as the claim stated: 10 lies in column 1, 20 in column 2, and so
on.) -/
theorem claim_C6_amended_column_ranges (g : Rng) (fuel : Nat) :
    (∀ grid : Grid, (generate_ticket_9x3 g).1 = some grid →
      ∀ r < 3, ∀ c < 9, ∀ n : Nat, cell grid r c = some n → codeColRange c n) ∧
    (∀ grid : Grid, (game_generate_ticket_9x3 fuel g).map Prod.fst = some grid →
      ∀ r < 3, ∀ c < 9, ∀ n : Nat, cell grid r c = some n → codeColRange c n) := by
  constructor
  · intro grid h r hr c hc n hcell
    rcases he : generate_ticket_9x3 g with ⟨o, g'⟩
    rw [he] at h
    cases o with
    | none => cases h
    | some grid' =>
      simp only [Option.some.injEq] at h
      subst h
      have hv := generate_ticket_9x3_valid he
      exact colRange_sub_code c hc n (hv.2.2.2.2.2.1 r hr c hc n hcell)
  · intro grid h r hr c hc n hcell
    rcases he : game_generate_ticket_9x3 fuel g with _ | ⟨grid', g2⟩
    · rw [he] at h; cases h
    · rw [he] at h
      simp only [Option.map_some', Option.some.injEq] at h
      subst h
      have hv := game_generate_ticket_9x3_valid he
      exact colRange_sub_code c hc n (hv.2.2.2.2.2.1 r hr c hc n hcell)

/-- Witness for the amended C6 at a concrete generated cell: the 7 in row 0,
column 0 of `c1MainGrid` lies in the code range `[1, 10)`. -/
theorem claim_C6_witness : codeColRange 0 7 :=
  (claim_C6_amended_column_ranges c1Rng 10).1 c1MainGrid (by decide)
    0 (by omega) 0 (by omega) 7 (by decide)

/-!
## Claim C4: batch size and pairwise distinctness
-/

def czStream : Nat → Nat := fun _ => 0

def czMT : Nat → Nat → Nat := fun _ _ => 0

/-- Counterexample to C4 as stated: `count = -1` returns normally (Python's
`count <= 0` guard yields `[]`), but the returned sequence does not have
`-1` tickets. -/
theorem claim_C4_counterexample :
    generate_unique_tickets czMT czStream (-1) (some 0) = some [] ∧
    ¬ ((([] : List Grid).length : Int) = -1) :=
  ⟨rfl, by decide⟩

/-- **C4 (amended).** For every seed and every *nonnegative* count for which
`generate_unique_tickets` returns normally, the returned sequence has exactly
`count` tickets and the 15-number sets of any two distinct tickets in it
differ; likewise for `game.py`'s implementation (any generator fuel). -/
theorem claim_C4_amended_unique_batch (mt : Nat → Nat → Nat) (env : Nat → Nat)
    (count : Int) (seed : Option Nat) (fuel : Nat) (h0 : 0 ≤ count) :
    (∀ ts : List Grid, generate_unique_tickets mt env count seed = some ts →
      (ts.length : Int) = count ∧ TicketsDistinct ts) ∧
    (∀ ts : List Grid, game_generate_unique_tickets fuel mt env count seed = some ts →
      (ts.length : Int) = count ∧ TicketsDistinct ts) := by
  constructor
  · intro ts h
    unfold generate_unique_tickets at h
    by_cases hc0 : count ≤ 0
    · rw [if_pos hc0] at h
      simp only [Option.some.injEq] at h
      subst h
      refine ⟨by simp; omega, List.Pairwise.nil⟩
    · rw [if_neg hc0] at h
      obtain ⟨hlen, hdist⟩ := mainUniqueOuter_spec count.toNat (pyRandom mt env seed) ∅ [] ts h
        (by intro t ht; cases ht) List.Pairwise.nil
      constructor
      · rw [hlen]
        simp
        omega
      · exact hdist
  · intro ts h
    unfold game_generate_unique_tickets at h
    obtain ⟨hlen, hdist⟩ := gameUniqueLoop_spec fuel count (count * 50).toNat
      (pyRandom mt env seed) ∅ [] ts h (by intro t ht; cases ht) List.Pairwise.nil
      (by simp; omega)
    exact ⟨hlen, hdist⟩

def idMT : Nat → Nat → Nat := fun _ n => n

/-- Witness for the amended C4: requesting one ticket on the identity stream
returns exactly one ticket (from both implementations). -/
theorem claim_C4_witness :
    (([c1MainGrid].length : Int) = 1 ∧ TicketsDistinct [c1MainGrid]) ∧
    (([c1GameGrid].length : Int) = 1 ∧ TicketsDistinct [c1GameGrid]) :=
  ⟨(claim_C4_amended_unique_batch idMT czStream 1 (some 0) 10 (by omega)).1
      [c1MainGrid] (by decide),
   (claim_C4_amended_unique_batch idMT czStream 1 (some 0) 10 (by omega)).2
      [c1GameGrid] (by decide)⟩

/-!
## Claim C8: processing order and row choice of the assignment step
-/

def c8grid : Grid :=
  [[some 1, some 12, none, none, none, none, none, none, none],
   [none, none, none, none, none, none, none, none, none],
   [none, none, some 21, none, none, none, none, none, none]]

def c8nums : List (List Nat) := [[], [], [], [], [42], [], [], [], []]

/-- The row-assignment step of `main.py` on a mid-loop state whose rows hold
2, 0 and 1 filled cells (capacities 3, 5, 4), processing a 1-count column. -/
def c8result : Grid :=
  ((mainPlaceLoop (List.replicate 9 1) c8nums [4] ⟨czStream, 0⟩ [3, 5, 4] c8grid).1.getD
    ([], [])).2

/-- Counterexample to C8 as stated: `main.py`'s row-assignment step places the
1-count column 4 in row 0 — which holds 2 filled cells — although row 1 holds
none: the step samples among all rows with remaining capacity instead of
choosing the row with the fewest filled cells. -/
theorem claim_C8_counterexample :
    cell c8result 0 4 = some 42 ∧ cell c8result 1 4 = none ∧ cell c8result 2 4 = none ∧
    rowFilled c8grid 0 = 2 ∧ rowFilled c8grid 1 = 0 ∧ rowFilled c8grid 2 = 1 :=
  ⟨by decide, by decide, by decide, by decide, by decide, by decide⟩

theorem argminRow_min (rc : List Nat) :
    ∀ r' : Nat, r' < 3 → r' ≠ argminRow rc →
      rc.getD (argminRow rc) 0 < rc.getD r' 0 ∨
      (rc.getD (argminRow rc) 0 = rc.getD r' 0 ∧ argminRow rc < r') := by
  intro r' hr' hne
  unfold argminRow at hne ⊢
  simp only [List.foldl] at hne ⊢
  interval_cases r' <;> split_ifs at hne ⊢ <;> omega

/-- **C8 (amended).**  Both implementations process columns in descending
order of their per-column count (`main.py` by a stable sort on negated count,
ties by lower index; `game.py` by handling the 3-count, then 2-count, then
1-count groups).  `game.py`'s step assigns each 2-count column to the two rows
currently holding the fewest filled cells and each 1-count column to the
single row with the fewest (ties broken towards the lower row index).
`main.py`'s step instead samples the required number of rows uniformly among
*all* rows with remaining capacity, which need not be the least-loaded ones
(see the counterexample). -/
theorem claim_C8_amended_row_assignment :
    (∀ counts : List Nat,
      List.Pairwise (fun i j => counts.getD j 0 ≤ counts.getD i 0) (mainColsOrder counts)) ∧
    (∀ (st : GameAssignSt) (c : Nat), c < 9 → st.rowsFor.length = 9 →
      (assign2 st c).rowsFor.getD c [] = twoSmallest st.rowCounts ∧
      (∀ r ∈ twoSmallest st.rowCounts, ∀ r' : Nat, r' < 3 →
        r' ∉ twoSmallest st.rowCounts →
        (st.rowCounts.getD r 0 < st.rowCounts.getD r' 0 ∨
         (st.rowCounts.getD r 0 = st.rowCounts.getD r' 0 ∧ r < r')))) ∧
    (∀ (st : GameAssignSt) (c : Nat), c < 9 → st.rowsFor.length = 9 →
      (assign1 st c).rowsFor.getD c [] = [argminRow st.rowCounts] ∧
      (∀ r' : Nat, r' < 3 → r' ≠ argminRow st.rowCounts →
        (st.rowCounts.getD (argminRow st.rowCounts) 0 < st.rowCounts.getD r' 0 ∨
         (st.rowCounts.getD (argminRow st.rowCounts) 0 = st.rowCounts.getD r' 0 ∧
          argminRow st.rowCounts < r')))) := by
  refine ⟨?_, ?_, ?_⟩
  · intro counts
    haveI htot : IsTotal Nat (fun i j =>
        counts.getD j 0 < counts.getD i 0 ∨ (counts.getD j 0 = counts.getD i 0 ∧ i ≤ j)) :=
      ⟨by intro a b; omega⟩
    haveI htra : IsTrans Nat (fun i j =>
        counts.getD j 0 < counts.getD i 0 ∨ (counts.getD j 0 = counts.getD i 0 ∧ i ≤ j)) :=
      ⟨by intro a b c hab hbc; omega⟩
    have hs := List.sorted_insertionSort (fun i j =>
        counts.getD j 0 < counts.getD i 0 ∨ (counts.getD j 0 = counts.getD i 0 ∧ i ≤ j))
      (List.range 9)
    exact hs.imp (by intro a b hab; omega)
  · intro st c hc hlen
    constructor
    · show (st.rowsFor.set c (twoSmallest st.rowCounts)).getD c [] = _
      rw [getD_set_self (by rw [hlen]; exact hc)]
    · intro r hr r' hr3 hr'
      set rc := st.rowCounts with hrc
      haveI htot : IsTotal Nat (fun a b =>
          rc.getD a 0 < rc.getD b 0 ∨ (rc.getD a 0 = rc.getD b 0 ∧ a ≤ b)) :=
        ⟨by intro a b; omega⟩
      haveI htra : IsTrans Nat (fun a b =>
          rc.getD a 0 < rc.getD b 0 ∨ (rc.getD a 0 = rc.getD b 0 ∧ a ≤ b)) :=
        ⟨by intro a b c hab hbc; omega⟩
      set srt := (List.range 3).insertionSort (fun a b =>
          rc.getD a 0 < rc.getD b 0 ∨ (rc.getD a 0 = rc.getD b 0 ∧ a ≤ b)) with hsrt
      have hsorted : List.Sorted (fun a b =>
          rc.getD a 0 < rc.getD b 0 ∨ (rc.getD a 0 = rc.getD b 0 ∧ a ≤ b)) srt :=
        List.sorted_insertionSort _ _
      have hperm : List.Perm srt (List.range 3) := List.perm_insertionSort _ _
      have hnd : srt.Nodup := hperm.nodup_iff.mpr (List.nodup_range 3)
      have hr'mem : r' ∈ srt := hperm.mem_iff.mpr (List.mem_range.mpr hr3)
      have hr'drop : r' ∈ srt.drop 2 := by
        rcases (List.mem_append.mp (by rw [List.take_append_drop 2 srt]; exact hr'mem))
          with hmem | hmem
        · exact absurd hmem hr'
        · exact hmem
      have hrel := hsorted.rel_of_mem_take_of_mem_drop hr hr'drop
      have hne : r ≠ r' := by
        intro he
        exact hr' (he ▸ hr)
      rcases hrel with hlt | ⟨heq, hle⟩
      · exact Or.inl hlt
      · exact Or.inr ⟨heq, lt_of_le_of_ne hle hne⟩
  · intro st c hc hlen
    constructor
    · show (st.rowsFor.set c [argminRow st.rowCounts]).getD c [] = _
      rw [getD_set_self (by rw [hlen]; exact hc)]
    · exact argminRow_min st.rowCounts

def c8st : GameAssignSt := ⟨List.replicate 9 [], [2, 0, 1]⟩

/-- Witness for the amended C8 on the load vector `[2, 0, 1]`: the 1-count
step writes `[argminRow [2, 0, 1]]` (row 1) and row 1's load is strictly below
row 0's. -/
theorem claim_C8_witness :
    (assign1 c8st 4).rowsFor.getD 4 [] = [argminRow c8st.rowCounts] ∧
    (c8st.rowCounts.getD (argminRow c8st.rowCounts) 0 < c8st.rowCounts.getD 0 0 ∨
     (c8st.rowCounts.getD (argminRow c8st.rowCounts) 0 = c8st.rowCounts.getD 0 0 ∧
      argminRow c8st.rowCounts < 0)) :=
  ⟨(claim_C8_amended_row_assignment.2.2 c8st 4 (by omega) (by decide)).1,
   (claim_C8_amended_row_assignment.2.2 c8st 4 (by omega) (by decide)).2 0 (by omega) (by decide)⟩
